import Mathlib

/-!
Shallow embedding of the polling-and-store core of kanzifucius/xp-tracker.

The Go maps `map[string]ClaimInfo` / `map[string]XRInfo` are modelled as
association lists with a no-duplicate-key well-formedness predicate; Go map
assignment becomes `insertEntry` (replace the binding if the key is present,
append otherwise), Go `delete` becomes a key filter, and Go map iteration
becomes list traversal.  All statements proved below are insensitive to the
iteration order that Go leaves unspecified (they are stated via lookups,
counts, memberships and permutations).
-/

namespace XPTracker

/-- ClaimInfo mirrors store.ClaimInfo (pkg/store/store.go).  `CreatedAt` is a
numeric timestamp standing in for Go's time.Time. -/
structure ClaimInfo where
  GVR : String
  Group : String
  Kind : String
  Namespace : String
  Name : String
  Creator : String
  Team : String
  Composition : String
  Source : String
  Ready : Bool
  Reason : String
  CreatedAt : Nat
  XRRef : String
deriving DecidableEq, Repr

/-- XRInfo mirrors store.XRInfo (pkg/store/store.go). -/
structure XRInfo where
  GVR : String
  Group : String
  Kind : String
  Namespace : String
  Name : String
  Composition : String
  Source : String
  Ready : Bool
  Reason : String
  CreatedAt : Nat
deriving DecidableEq, Repr

/-- objectKey mirrors store.objectKey: bare name for cluster-scoped resources
(empty namespace), "namespace/name" otherwise. -/
def objectKey (namespace_ name : String) : String :=
  if namespace_ = "" then name else namespace_ ++ "/" ++ name

/-- Identity key of a claim, as used by MemoryStore.ReplaceClaims. -/
def claimKey (c : ClaimInfo) : String :=
  objectKey c.Namespace c.Name

/-- Identity key of an XR, as used by MemoryStore.ReplaceXRs. -/
def xrKey (x : XRInfo) : String :=
  objectKey x.Namespace x.Name

/-- Go map assignment `m[k] = v`: replace the binding for `k` if present,
append `(k, v)` otherwise. -/
def insertEntry (m : List (String × α)) (k : String) (v : α) : List (String × α) :=
  match m with
  | [] => [(k, v)]
  | (k', v') :: rest => if k' = k then (k, v) :: rest else (k', v') :: insertEntry rest k v

/-- Go map read `m[k]` (with the comma-ok form): the value bound to `k`. -/
def lookupEntry (m : List (String × α)) (k : String) : Option α :=
  match m with
  | [] => none
  | (k', v) :: rest => if k' = k then some v else lookupEntry rest k

/-- Go `delete(m, k)`. -/
def eraseKey (m : List (String × α)) (k : String) : List (String × α) :=
  m.filter (fun p => p.1 != k)

/-- The add/update loop of ReplaceClaims/ReplaceXRs: upsert every incoming
item under its identity key, in order (later items overwrite earlier ones at
the same key, as Go map assignment does). -/
def upsertAll (key : α → String) (m : List (String × α)) (items : List α) : List (String × α) :=
  items.foldl (fun acc v => insertEntry acc (key v) v) m

/-- The `newKeys` set of ReplaceClaims/ReplaceXRs. -/
def keysOf (key : α → String) (items : List α) : List String :=
  items.map key

/-- The last item of `items` whose identity key is `k` (the binding that
survives the upsert loop at key `k`). -/
def lastWith (key : α → String) (items : List α) (k : String) : Option α :=
  match items with
  | [] => none
  | v :: rest =>
      match lastWith key rest k with
      | some w => some w
      | none => if key v = k then some v else none

/-- The shared body of ReplaceClaims and ReplaceXRs: upsert all items, then
remove entries whose stored tag (GVR) equals `g` but whose key is absent from
the incoming key set.  An entry survives iff its tag differs from `g` or its
key is among the incoming keys. -/
def replacePart (key tag : α → String) (m : List (String × α)) (g : String)
    (items : List α) : List (String × α) :=
  (upsertAll key m items).filter (fun p => tag p.2 != g || (keysOf key items).contains p.1)

/-- MemoryStore (pkg/store/store.go), with the two maps as association lists.
The mutex is irrelevant to the sequential semantics modelled here. -/
structure MemoryStore where
  claims : List (String × ClaimInfo)
  xrs : List (String × XRInfo)
deriving DecidableEq, Repr

namespace MemoryStore

/-- store.New(): a fresh empty MemoryStore. -/
def New : MemoryStore :=
  { claims := [], xrs := [] }

/-- MemoryStore.ReplaceClaims. -/
def ReplaceClaims (s : MemoryStore) (gvr : String) (items : List ClaimInfo) : MemoryStore :=
  { s with claims := replacePart claimKey ClaimInfo.GVR s.claims gvr items }

/-- MemoryStore.ReplaceXRs. -/
def ReplaceXRs (s : MemoryStore) (gvr : String) (items : List XRInfo) : MemoryStore :=
  { s with xrs := replacePart xrKey XRInfo.GVR s.xrs gvr items }

end MemoryStore

/-- The per-claim body of MemoryStore.EnrichClaimCompositions: a claim with an
empty XRRef is skipped; otherwise the XR map is consulted at the bare XRRef
key, and on a hit the XR's Composition is copied onto the claim. -/
def enrichOne (xrs : List (String × XRInfo)) (c : ClaimInfo) : ClaimInfo :=
  if c.XRRef = "" then c
  else
    match lookupEntry xrs c.XRRef with
    | some xr => { c with Composition := xr.Composition }
    | none => c

namespace MemoryStore

/-- MemoryStore.EnrichClaimCompositions. -/
def EnrichClaimCompositions (s : MemoryStore) : MemoryStore :=
  { s with claims := s.claims.map (fun p => (p.1, enrichOne s.xrs p.2)) }

/-- MemoryStore.SnapshotClaims: the stored claim records (a copy; order is
model-internal, Go map iteration order is unspecified). -/
def SnapshotClaims (s : MemoryStore) : List ClaimInfo :=
  s.claims.map Prod.snd

/-- MemoryStore.SnapshotXRs. -/
def SnapshotXRs (s : MemoryStore) : List XRInfo :=
  s.xrs.map Prod.snd

/-- MemoryStore.ClaimCount. -/
def ClaimCount (s : MemoryStore) : Nat :=
  s.claims.length

/-- MemoryStore.XRCount. -/
def XRCount (s : MemoryStore) : Nat :=
  s.xrs.length

end MemoryStore

/-- Well-formedness of one of the store maps: keys are pairwise distinct (it
is a map) and every binding sits under the identity key of its value (which
is how ReplaceClaims/ReplaceXRs always insert). -/
def MapWF (key : α → String) (m : List (String × α)) : Prop :=
  (m.map Prod.fst).Nodup ∧ ∀ p ∈ m, p.1 = key p.2

@[simp] theorem upsertAll_nil (key : α → String) (m : List (String × α)) :
    upsertAll key m [] = m := rfl

@[simp] theorem upsertAll_cons (key : α → String) (m : List (String × α)) (v : α)
    (items : List α) :
    upsertAll key m (v :: items) = upsertAll key (insertEntry m (key v) v) items := rfl

theorem lookupEntry_insertEntry_self (m : List (String × α)) (k : String) (v : α) :
    lookupEntry (insertEntry m k v) k = some v := by
  induction m with
  | nil => simp [insertEntry, lookupEntry]
  | cons p rest ih =>
      obtain ⟨k', v'⟩ := p
      by_cases h : k' = k
      · simp [insertEntry, lookupEntry, h]
      · simp [insertEntry, lookupEntry, h, ih]

theorem lookupEntry_insertEntry_ne (m : List (String × α)) {k k' : String} (v : α)
    (h : k' ≠ k) :
    lookupEntry (insertEntry m k v) k' = lookupEntry m k' := by
  induction m with
  | nil => simp [insertEntry, lookupEntry, Ne.symm h]
  | cons p rest ih =>
      obtain ⟨k0, v0⟩ := p
      by_cases hk : k0 = k
      · subst hk
        simp [insertEntry, lookupEntry, Ne.symm h]
      · simp [insertEntry, lookupEntry, hk, ih]

theorem keys_insertEntry (m : List (String × α)) (k : String) (v : α) :
    (insertEntry m k v).map Prod.fst =
      if k ∈ m.map Prod.fst then m.map Prod.fst else m.map Prod.fst ++ [k] := by
  induction m with
  | nil => simp [insertEntry]
  | cons p rest ih =>
      obtain ⟨k0, v0⟩ := p
      by_cases hk : k0 = k
      · subst hk
        simp [insertEntry]
      · by_cases hm : k ∈ rest.map Prod.fst
        · simp [insertEntry, hk, ih, hm, Ne.symm hk]
        · simp [insertEntry, hk, ih, hm, Ne.symm hk]

theorem nodupKeys_insertEntry (m : List (String × α)) (k : String) (v : α)
    (h : (m.map Prod.fst).Nodup) :
    ((insertEntry m k v).map Prod.fst).Nodup := by
  rw [keys_insertEntry]
  by_cases hk : k ∈ m.map Prod.fst
  · simpa [hk] using h
  · simp [hk, List.nodup_append, h]

theorem mem_insertEntry {m : List (String × α)} {k : String} {v : α} {p : String × α}
    (h : p ∈ insertEntry m k v) :
    p ∈ m ∨ p = (k, v) := by
  induction m with
  | nil =>
      simp [insertEntry] at h
      exact Or.inr h
  | cons q rest ih =>
      obtain ⟨k0, v0⟩ := q
      by_cases hk : k0 = k
      · subst hk
        simp [insertEntry] at h
        rcases h with h | h
        · exact Or.inr (by simp [h])
        · exact Or.inl (List.mem_cons_of_mem _ h)
      · simp [insertEntry, hk] at h
        rcases h with h | h
        · exact Or.inl (by simp [h])
        · rcases ih h with h' | h'
          · exact Or.inl (List.mem_cons_of_mem _ h')
          · exact Or.inr h'

theorem mem_upsertAll (key : α → String) {m : List (String × α)} {items : List α}
    {p : String × α} (h : p ∈ upsertAll key m items) :
    p ∈ m ∨ ∃ w ∈ items, p = (key w, w) := by
  induction items generalizing m with
  | nil => exact Or.inl h
  | cons v rest ih =>
      rcases ih (m := insertEntry m (key v) v) h with h' | h'
      · rcases mem_insertEntry h' with h'' | h''
        · exact Or.inl h''
        · exact Or.inr ⟨v, by simp, h''⟩
      · obtain ⟨w, hw, hp⟩ := h'
        exact Or.inr ⟨w, by simp [hw], hp⟩

theorem nodupKeys_upsertAll (key : α → String) {m : List (String × α)} {items : List α}
    (h : (m.map Prod.fst).Nodup) :
    ((upsertAll key m items).map Prod.fst).Nodup := by
  induction items generalizing m with
  | nil => simpa using h
  | cons v rest ih => exact ih (nodupKeys_insertEntry _ _ _ h)

theorem keyConsistent_upsertAll (key : α → String) {m : List (String × α)} {items : List α}
    (h : ∀ p ∈ m, p.1 = key p.2) :
    ∀ p ∈ upsertAll key m items, p.1 = key p.2 := by
  intro p hp
  rcases mem_upsertAll key hp with h' | ⟨w, _, hw⟩
  · exact h p h'
  · simp [hw]

theorem mapWF_replacePart (key tag : α → String) {m : List (String × α)} (g : String)
    (items : List α) (h : MapWF key m) :
    MapWF key (replacePart key tag m g items) := by
  obtain ⟨hnd, hcons⟩ := h
  constructor
  · exact ((List.filter_sublist _).map Prod.fst).nodup (nodupKeys_upsertAll key hnd)
  · intro p hp
    exact keyConsistent_upsertAll key hcons p (List.mem_of_mem_filter hp)

theorem lookupEntry_eq_none (m : List (String × α)) (k : String) :
    lookupEntry m k = none ↔ k ∉ m.map Prod.fst := by
  induction m with
  | nil => simp [lookupEntry]
  | cons p rest ih =>
      obtain ⟨k0, v0⟩ := p
      by_cases hk : k0 = k
      · subst hk
        simp [lookupEntry]
      · simp [lookupEntry, hk, ih, Ne.symm hk]

theorem lookupEntry_upsertAll (key : α → String) (m : List (String × α)) (items : List α)
    (k : String) :
    lookupEntry (upsertAll key m items) k =
      match lastWith key items k with
      | some v => some v
      | none => lookupEntry m k := by
  induction items generalizing m with
  | nil => simp [lastWith]
  | cons v rest ih =>
      simp only [upsertAll_cons]
      rw [ih]
      cases h : lastWith key rest k with
      | some w => simp [lastWith, h]
      | none =>
          by_cases hv : key v = k
          · subst hv
            simp [lastWith, h, lookupEntry_insertEntry_self]
          · simp [lastWith, h, hv, lookupEntry_insertEntry_ne _ _ (Ne.symm hv)]

theorem lastWith_eq_none (key : α → String) (items : List α) (k : String) :
    lastWith key items k = none ↔ k ∉ keysOf key items := by
  induction items with
  | nil => simp [lastWith, keysOf]
  | cons v rest ih =>
      cases h : lastWith key rest k with
      | some w =>
          have hk : k ∈ keysOf key rest := by
            by_contra hc
            rw [← ih] at hc
            rw [h] at hc
            exact Option.noConfusion hc
          simp only [keysOf, List.mem_map] at hk
          simp [lastWith, h, keysOf]
          intro _
          exact hk
      | none =>
          have hk : k ∉ keysOf key rest := ih.mp h
          by_cases hv : key v = k
          · simp [lastWith, h, hv, keysOf]
          · simp [lastWith, h, hv, keysOf, Ne.symm hv]
            simpa [keysOf] using hk

theorem lastWith_mem {key : α → String} {items : List α} {k : String} {v : α}
    (h : lastWith key items k = some v) :
    v ∈ items ∧ key v = k := by
  induction items with
  | nil => simp [lastWith] at h
  | cons w rest ih =>
      cases hr : lastWith key rest k with
      | some u =>
          simp only [lastWith, hr, Option.some.injEq] at h
          subst h
          obtain ⟨hm, hk⟩ := ih hr
          exact ⟨List.mem_cons_of_mem _ hm, hk⟩
      | none =>
          simp only [lastWith, hr] at h
          by_cases hw : key w = k
          · rw [if_pos hw, Option.some.injEq] at h
            subst h
            exact ⟨by simp, hw⟩
          · rw [if_neg hw] at h
            exact Option.noConfusion h

theorem lookupEntry_filter {m : List (String × α)} (q : String × α → Bool)
    (hnd : (m.map Prod.fst).Nodup) (k : String) :
    lookupEntry (m.filter q) k =
      (lookupEntry m k).bind (fun v => if q (k, v) then some v else none) := by
  induction m with
  | nil => simp [lookupEntry]
  | cons p rest ih =>
      obtain ⟨k0, v0⟩ := p
      have hnd' : (rest.map Prod.fst).Nodup := by
        simp only [List.map_cons, List.nodup_cons] at hnd
        exact hnd.2
      have hk0 : k0 ∉ rest.map Prod.fst := by
        simp only [List.map_cons, List.nodup_cons] at hnd
        exact hnd.1
      by_cases hk : k0 = k
      · subst hk
        by_cases hq : q (k0, v0)
        · simp [List.filter_cons, hq, lookupEntry]
        · have hq' : q (k0, v0) = false := by simpa using hq
          have hrest : lookupEntry (rest.filter q) k0 = none := by
            rw [lookupEntry_eq_none]
            intro hmem
            exact hk0 (((List.filter_sublist rest).map Prod.fst).subset hmem)
          simp [List.filter_cons, hq', lookupEntry, hrest]
      · by_cases hq : q (k0, v0) <;>
          simp [List.filter_cons, hq, lookupEntry, hk, ih hnd']

theorem lookupEntry_replacePart (key tag : α → String) {m : List (String × α)} (g : String)
    (items : List α) (k : String) (hnd : (m.map Prod.fst).Nodup) :
    lookupEntry (replacePart key tag m g items) k =
      match lastWith key items k with
      | some v => some v
      | none =>
          match lookupEntry m k with
          | some w => if tag w = g then none else some w
          | none => none := by
  unfold replacePart
  rw [lookupEntry_filter _ (nodupKeys_upsertAll key hnd), lookupEntry_upsertAll]
  cases h : lastWith key items k with
  | some v =>
      obtain ⟨hv_mem, hv_key⟩ := lastWith_mem h
      have hkmem : k ∈ keysOf key items := by
        show k ∈ items.map key
        exact List.mem_map.mpr ⟨v, hv_mem, hv_key⟩
      simp [hkmem]
  | none =>
      have hk : k ∉ keysOf key items := (lastWith_eq_none _ _ _).mp h
      cases hm : lookupEntry m k with
      | none => simp
      | some w => by_cases ht : tag w = g <;> simp [ht, hk]

theorem countP_map_snd_eq_zero {key : α → String} {m : List (String × α)}
    (hcons : ∀ p ∈ m, p.1 = key p.2) {k : String} (hk : k ∉ m.map Prod.fst) :
    ((m.map Prod.snd).countP (fun v => key v == k)) = 0 := by
  induction m with
  | nil => simp
  | cons p rest ih =>
      have h1 : p.1 = key p.2 := hcons p (by simp)
      have h2 : (key p.2 == k) = false := by
        simp only [beq_eq_false_iff_ne, ne_eq]
        intro he
        apply hk
        simp only [List.map_cons, List.mem_cons]
        exact Or.inl ((h1.trans he).symm)
      rw [List.map_cons, List.countP_cons, h2]
      simp only [Bool.false_eq_true, if_false, Nat.add_zero]
      exact ih (fun q hq => hcons q (by simp [hq])) (fun h => hk (by simp [h]))

theorem countP_map_snd {key : α → String} {m : List (String × α)} (k : String)
    (hnd : (m.map Prod.fst).Nodup) (hcons : ∀ p ∈ m, p.1 = key p.2) :
    ((m.map Prod.snd).countP (fun v => key v == k)) =
      if (lookupEntry m k).isSome then 1 else 0 := by
  induction m with
  | nil => simp [lookupEntry]
  | cons p rest ih =>
      obtain ⟨k0, v0⟩ := p
      have hnd' : (rest.map Prod.fst).Nodup := by
        simp only [List.map_cons, List.nodup_cons] at hnd
        exact hnd.2
      have hk0 : k0 ∉ rest.map Prod.fst := by
        simp only [List.map_cons, List.nodup_cons] at hnd
        exact hnd.1
      have hcons' : ∀ q ∈ rest, q.1 = key q.2 := fun q hq => hcons q (by simp [hq])
      have hkey : key v0 = k0 := (hcons (k0, v0) (by simp)).symm
      by_cases hk : k0 = k
      · subst hk
        simp only [List.map_cons, List.countP_cons, lookupEntry, if_pos rfl,
          Option.isSome_some, if_true]
        rw [countP_map_snd_eq_zero hcons' hk0]
        simp [hkey]
      · have h2 : (key v0 == k) = false := by
          simp only [beq_eq_false_iff_ne, ne_eq, hkey]
          exact hk
        simp only [List.map_cons, List.countP_cons, h2, Bool.false_eq_true, if_false,
          Nat.add_zero, lookupEntry, if_neg hk]
        exact ih hnd' hcons'

theorem mem_iff_lookupEntry {m : List (String × α)}
    (hnd : (m.map Prod.fst).Nodup) {k : String} {v : α} :
    (k, v) ∈ m ↔ lookupEntry m k = some v := by
  induction m with
  | nil => simp [lookupEntry]
  | cons p rest ih =>
      obtain ⟨k0, v0⟩ := p
      have hnd' : (rest.map Prod.fst).Nodup := by
        simp only [List.map_cons, List.nodup_cons] at hnd
        exact hnd.2
      have hk0 : k0 ∉ rest.map Prod.fst := by
        simp only [List.map_cons, List.nodup_cons] at hnd
        exact hnd.1
      by_cases hk : k0 = k
      · subst hk
        simp only [lookupEntry, if_pos rfl, List.mem_cons]
        constructor
        · rintro (h | h)
          · simp [Prod.ext_iff] at h
            simp [h]
          · exact absurd (by simpa using List.mem_map_of_mem Prod.fst h) hk0
        · intro h
          exact Or.inl (by simp at h; simp [h])
      · simp only [lookupEntry, if_neg hk, List.mem_cons]
        rw [← ih hnd']
        constructor
        · rintro (h | h)
          · exact absurd (congrArg Prod.fst h).symm (by simpa using hk)
          · exact h
        · exact Or.inr

@[simp] theorem keysOf_nil (key : α → String) : keysOf key [] = [] := rfl

@[simp] theorem keysOf_cons (key : α → String) (v : α) (items : List α) :
    keysOf key (v :: items) = key v :: keysOf key items := rfl

theorem filter_ne_insertEntry (tag : α → String) {m : List (String × α)} {g : String}
    {k : String} {v : α} (hv : tag v = g)
    (hsep : ∀ p ∈ m, tag p.2 ≠ g → p.1 ≠ k) :
    (insertEntry m k v).filter (fun p => tag p.2 != g) =
      m.filter (fun p => tag p.2 != g) := by
  induction m with
  | nil => simp [insertEntry, hv]
  | cons p rest ih =>
      obtain ⟨k0, v0⟩ := p
      by_cases hk : k0 = k
      · subst hk
        have hv0 : tag v0 = g := by
          by_contra hc
          exact (hsep (k0, v0) (by simp) hc) rfl
        simp [insertEntry, List.filter_cons, hv, hv0]
      · have := ih (fun p hp ht => hsep p (List.mem_cons_of_mem _ hp) ht)
        simp [insertEntry, hk, List.filter_cons, this]

theorem filter_ne_upsertAll (key tag : α → String) {m : List (String × α)} {g : String}
    {items : List α} (htag : ∀ w ∈ items, tag w = g)
    (hsep : ∀ p ∈ m, tag p.2 ≠ g → p.1 ∉ keysOf key items) :
    (upsertAll key m items).filter (fun p => tag p.2 != g) =
      m.filter (fun p => tag p.2 != g) := by
  induction items generalizing m with
  | nil => rfl
  | cons v rest ih =>
      rw [upsertAll_cons]
      rw [ih (fun w hw => htag w (by simp [hw])) ?_]
      · exact filter_ne_insertEntry tag (htag v (by simp))
          (fun p hp ht he => (hsep p hp ht) (by simp [he]))
      · intro p hp ht
        rcases mem_insertEntry hp with h' | h'
        · exact fun hmem => hsep p h' ht (List.mem_cons_of_mem _ hmem)
        · subst h'
          exact absurd (htag v (by simp)) ht

theorem filter_ne_replacePart (key tag : α → String) {m : List (String × α)} {g : String}
    {items : List α} (htag : ∀ w ∈ items, tag w = g)
    (hsep : ∀ p ∈ m, tag p.2 ≠ g → p.1 ∉ keysOf key items) :
    (replacePart key tag m g items).filter (fun p => tag p.2 != g) =
      m.filter (fun p => tag p.2 != g) := by
  unfold replacePart
  rw [List.filter_filter]
  rw [List.filter_congr (q := fun p => tag p.2 != g)
      (fun p _ => by cases h : (tag p.2 != g) <;> simp [h])]
  exact filter_ne_upsertAll key tag htag hsep

/-- Master lemma behind C1: complete characterisation of a replace call under
the poller's calling convention (all items tagged with the call's GVR, and no
foreign-GVR entry colliding on an identity key). -/
theorem replacePart_spec (key tag : α → String) {m : List (String × α)} {g : String}
    {items : List α} (hwf : MapWF key m)
    (htag : ∀ w ∈ items, tag w = g)
    (hsep : ∀ p ∈ m, tag p.2 ≠ g → p.1 ∉ keysOf key items) :
    (∀ k ∈ keysOf key items,
        (((replacePart key tag m g items).map Prod.snd).countP (fun v => key v == k)) = 1) ∧
    (∀ v ∈ (replacePart key tag m g items).map Prod.snd,
        key v ∈ keysOf key items → v ∈ items ∧ tag v = g) ∧
    (∀ v ∈ (replacePart key tag m g items).map Prod.snd,
        tag v = g → key v ∈ keysOf key items) ∧
    ((replacePart key tag m g items).filter (fun p => tag p.2 != g) =
        m.filter (fun p => tag p.2 != g)) := by
  have hwf' : MapWF key (replacePart key tag m g items) :=
    mapWF_replacePart key tag g items hwf
  have hchar := fun k => lookupEntry_replacePart key tag g items k hwf.1
  refine ⟨?_, ?_, ?_, filter_ne_replacePart key tag htag hsep⟩
  · intro k hk
    have hlast : lastWith key items k ≠ none := by
      intro hc
      exact ((lastWith_eq_none _ _ _).mp hc) hk
    rw [countP_map_snd k hwf'.1 hwf'.2]
    cases h : lastWith key items k with
    | none => exact absurd h hlast
    | some v =>
        have := hchar k
        rw [h] at this
        simp [this]
  · intro v hv hk
    obtain ⟨p, hp, hps⟩ := List.mem_map.mp hv
    have hpk : p.1 = key v := by rw [hwf'.2 p hp, hps]
    have hlook : lookupEntry (replacePart key tag m g items) (key v) = some v := by
      rw [← hpk, ← hps]
      exact (mem_iff_lookupEntry hwf'.1).mp (by rw [← Prod.mk.eta (p := p)] at hp; exact hp)
    have := hchar (key v)
    rw [hlook] at this
    cases h : lastWith key items (key v) with
    | none =>
        exact absurd ((lastWith_eq_none _ _ _).mp h) (by simpa using hk)
    | some w =>
        rw [h] at this
        obtain ⟨hwm, _⟩ := lastWith_mem h
        have hvw : w = v := by simpa using this.symm
        subst hvw
        exact ⟨hwm, htag w hwm⟩
  · intro v hv htg
    obtain ⟨p, hp, hps⟩ := List.mem_map.mp hv
    have hpk : p.1 = key v := by rw [hwf'.2 p hp, hps]
    have hlook : lookupEntry (replacePart key tag m g items) (key v) = some v := by
      rw [← hpk, ← hps]
      exact (mem_iff_lookupEntry hwf'.1).mp (by rw [← Prod.mk.eta (p := p)] at hp; exact hp)
    have hc := hchar (key v)
    rw [hlook] at hc
    cases h : lastWith key items (key v) with
    | some w =>
        have h1 := lastWith_mem h
        show key v ∈ List.map key items
        exact h1.2 ▸ List.mem_map_of_mem key h1.1
    | none =>
        simp only [h] at hc
        cases hm : lookupEntry m (key v) with
        | none =>
            simp only [hm] at hc
            exact Option.noConfusion hc
        | some w =>
            simp only [hm] at hc
            by_cases ht : tag w = g
            · rw [if_pos ht] at hc
              exact Option.noConfusion hc
            · rw [if_neg ht, Option.some.injEq] at hc
              subst hc
              exact absurd htg ht

/-- Sample claim record used by concrete witnesses and counterexamples. -/
def mkClaim (gvr ns name xrRef comp : String) : ClaimInfo :=
  { GVR := gvr, Group := "g", Kind := "K", Namespace := ns, Name := name,
    Creator := "", Team := "", Composition := comp, Source := "central",
    Ready := true, Reason := "", CreatedAt := 0, XRRef := xrRef }

/-- Sample XR record used by concrete witnesses and counterexamples. -/
def mkXR (gvr ns name comp : String) : XRInfo :=
  { GVR := gvr, Group := "g", Kind := "K", Namespace := ns, Name := name,
    Composition := comp, Source := "central", Ready := true, Reason := "",
    CreatedAt := 0 }

/-- C1 (amended): after `ReplaceClaims gvr items` (and symmetrically after
`ReplaceXRs gvr xitems`), provided every incoming item carries `gvr` in its
GVR field and no existing record of a different GVR shares an identity key
with an incoming item, the snapshot contains exactly one record per distinct
identity key of `items`, every record at an incoming key is one of the items
and is tagged `gvr`, every record tagged `gvr` sits at an incoming key, and
the sub-map of records whose GVR differs from `gvr` is unchanged. -/
theorem replaceClaims_replaceXRs_partition (s : MemoryStore) (gvr : String)
    (items : List ClaimInfo) (xitems : List XRInfo)
    (hwfc : MapWF claimKey s.claims) (hwfx : MapWF xrKey s.xrs)
    (htagc : ∀ c ∈ items, c.GVR = gvr) (htagx : ∀ x ∈ xitems, x.GVR = gvr)
    (hsepc : ∀ p ∈ s.claims, p.2.GVR ≠ gvr → p.1 ∉ keysOf claimKey items)
    (hsepx : ∀ p ∈ s.xrs, p.2.GVR ≠ gvr → p.1 ∉ keysOf xrKey xitems) :
    (∀ k ∈ keysOf claimKey items,
        ((s.ReplaceClaims gvr items).SnapshotClaims.countP (fun c => claimKey c == k)) = 1) ∧
    (∀ c ∈ (s.ReplaceClaims gvr items).SnapshotClaims,
        claimKey c ∈ keysOf claimKey items → c ∈ items ∧ c.GVR = gvr) ∧
    (∀ c ∈ (s.ReplaceClaims gvr items).SnapshotClaims,
        c.GVR = gvr → claimKey c ∈ keysOf claimKey items) ∧
    ((s.ReplaceClaims gvr items).claims.filter (fun p => p.2.GVR != gvr) =
        s.claims.filter (fun p => p.2.GVR != gvr)) ∧
    (∀ k ∈ keysOf xrKey xitems,
        ((s.ReplaceXRs gvr xitems).SnapshotXRs.countP (fun x => xrKey x == k)) = 1) ∧
    (∀ x ∈ (s.ReplaceXRs gvr xitems).SnapshotXRs,
        xrKey x ∈ keysOf xrKey xitems → x ∈ xitems ∧ x.GVR = gvr) ∧
    (∀ x ∈ (s.ReplaceXRs gvr xitems).SnapshotXRs,
        x.GVR = gvr → xrKey x ∈ keysOf xrKey xitems) ∧
    ((s.ReplaceXRs gvr xitems).xrs.filter (fun p => p.2.GVR != gvr) =
        s.xrs.filter (fun p => p.2.GVR != gvr)) := by
  obtain ⟨c1, c2, c3, c4⟩ := replacePart_spec claimKey ClaimInfo.GVR hwfc htagc hsepc
  obtain ⟨x1, x2, x3, x4⟩ := replacePart_spec xrKey XRInfo.GVR hwfx htagx hsepx
  exact ⟨c1, c2, c3, c4, x1, x2, x3, x4⟩

def wClaim : ClaimInfo := mkClaim "g/v1/widgets" "team-a" "w1" "" ""

def wXR : XRInfo := mkXR "g/v1/widgets" "" "xw1" ""

/-- Witness for C1's theorem: the hypotheses hold for a fresh store and a
single correctly tagged claim/XR, and the conclusion follows. -/
theorem replaceClaims_replaceXRs_partition_witness :
    (MapWF claimKey MemoryStore.New.claims) ∧
    (MapWF xrKey MemoryStore.New.xrs) ∧
    (∀ c ∈ [wClaim], c.GVR = "g/v1/widgets") ∧
    (∀ x ∈ [wXR], x.GVR = "g/v1/widgets") ∧
    (∀ p ∈ MemoryStore.New.claims, p.2.GVR ≠ "g/v1/widgets" → p.1 ∉ keysOf claimKey [wClaim]) ∧
    (∀ p ∈ MemoryStore.New.xrs, p.2.GVR ≠ "g/v1/widgets" → p.1 ∉ keysOf xrKey [wXR]) ∧
    ((∀ k ∈ keysOf claimKey [wClaim],
        ((MemoryStore.New.ReplaceClaims "g/v1/widgets" [wClaim]).SnapshotClaims.countP
          (fun c => claimKey c == k)) = 1) ∧
      (∀ c ∈ (MemoryStore.New.ReplaceClaims "g/v1/widgets" [wClaim]).SnapshotClaims,
        claimKey c ∈ keysOf claimKey [wClaim] → c ∈ [wClaim] ∧ c.GVR = "g/v1/widgets") ∧
      (∀ c ∈ (MemoryStore.New.ReplaceClaims "g/v1/widgets" [wClaim]).SnapshotClaims,
        c.GVR = "g/v1/widgets" → claimKey c ∈ keysOf claimKey [wClaim]) ∧
      ((MemoryStore.New.ReplaceClaims "g/v1/widgets" [wClaim]).claims.filter
          (fun p => p.2.GVR != "g/v1/widgets") =
        MemoryStore.New.claims.filter (fun p => p.2.GVR != "g/v1/widgets")) ∧
      (∀ k ∈ keysOf xrKey [wXR],
        ((MemoryStore.New.ReplaceXRs "g/v1/widgets" [wXR]).SnapshotXRs.countP
          (fun x => xrKey x == k)) = 1) ∧
      (∀ x ∈ (MemoryStore.New.ReplaceXRs "g/v1/widgets" [wXR]).SnapshotXRs,
        xrKey x ∈ keysOf xrKey [wXR] → x ∈ [wXR] ∧ x.GVR = "g/v1/widgets") ∧
      (∀ x ∈ (MemoryStore.New.ReplaceXRs "g/v1/widgets" [wXR]).SnapshotXRs,
        x.GVR = "g/v1/widgets" → xrKey x ∈ keysOf xrKey [wXR]) ∧
      ((MemoryStore.New.ReplaceXRs "g/v1/widgets" [wXR]).xrs.filter
          (fun p => p.2.GVR != "g/v1/widgets") =
        MemoryStore.New.xrs.filter (fun p => p.2.GVR != "g/v1/widgets"))) :=
  have h1 : MapWF claimKey MemoryStore.New.claims :=
    ⟨by simp [MemoryStore.New], by simp [MemoryStore.New]⟩
  have h2 : MapWF xrKey MemoryStore.New.xrs :=
    ⟨by simp [MemoryStore.New], by simp [MemoryStore.New]⟩
  have h3 : ∀ c ∈ [wClaim], c.GVR = "g/v1/widgets" := by decide
  have h4 : ∀ x ∈ [wXR], x.GVR = "g/v1/widgets" := by decide
  have h5 : ∀ p ∈ MemoryStore.New.claims,
      p.2.GVR ≠ "g/v1/widgets" → p.1 ∉ keysOf claimKey [wClaim] := by
    simp [MemoryStore.New]
  have h6 : ∀ p ∈ MemoryStore.New.xrs,
      p.2.GVR ≠ "g/v1/widgets" → p.1 ∉ keysOf xrKey [wXR] := by
    simp [MemoryStore.New]
  ⟨h1, h2, h3, h4, h5, h6,
    replaceClaims_replaceXRs_partition MemoryStore.New "g/v1/widgets" [wClaim] [wXR]
      h1 h2 h3 h4 h5 h6⟩

def cexOld : ClaimInfo := mkClaim "g2/v1/widgets" "ns" "a" "" ""

def cexNew : ClaimInfo := mkClaim "g3/v1/widgets" "ns" "a" "" ""

def cexStore : MemoryStore := { claims := [("ns/a", cexOld)], xrs := [] }

/-- C1 counterexample: for the unrestricted claim, a replace call does not
tag stored records with the call's GVR (the stored record keeps its own GVR
field), and a record of a different GVR that shares an identity key with an
incoming item is overwritten, not left untouched. -/
theorem replaceClaims_partition_cex :
    (cexStore.ReplaceClaims "g1/v1/widgets" [cexNew]).SnapshotClaims = [cexNew] ∧
    cexNew.GVR ≠ "g1/v1/widgets" ∧
    cexOld.GVR ≠ "g1/v1/widgets" ∧
    cexOld ∈ cexStore.SnapshotClaims ∧
    cexOld ∉ (cexStore.ReplaceClaims "g1/v1/widgets" [cexNew]).SnapshotClaims := by
  decide

/-- C2 (amended): after EnrichClaimCompositions, every claim whose non-empty
XRRef resolves in the XR map carries the referenced XR's composition name;
a claim whose XRRef is empty or does not resolve is left entirely unchanged
(in particular its composition keeps its pre-enrichment value, which need
not be empty). -/
theorem enrichClaimCompositions_spec (s : MemoryStore) :
    (∀ p ∈ s.claims, ∀ xr, p.2.XRRef ≠ "" → lookupEntry s.xrs p.2.XRRef = some xr →
        (p.1, { p.2 with Composition := xr.Composition }) ∈ s.EnrichClaimCompositions.claims) ∧
    (∀ p ∈ s.claims, (p.2.XRRef = "" ∨ lookupEntry s.xrs p.2.XRRef = none) →
        p ∈ s.EnrichClaimCompositions.claims) := by
  constructor
  · intro p hp xr hne hlk
    have hm : (p.1, enrichOne s.xrs p.2) ∈ s.EnrichClaimCompositions.claims :=
      List.mem_map_of_mem _ hp
    simpa [enrichOne, hne, hlk] using hm
  · intro p hp hcase
    have hm : (p.1, enrichOne s.xrs p.2) ∈ s.EnrichClaimCompositions.claims :=
      List.mem_map_of_mem _ hp
    rcases hcase with h | h
    · simpa [enrichOne, h] using hm
    · by_cases hne : p.2.XRRef = ""
      · simpa [enrichOne, hne] using hm
      · simpa [enrichOne, hne, h] using hm

def enrichClaimRef : ClaimInfo := mkClaim "g/v1/dbs" "ns" "db1" "xr-abc" ""

def enrichClaimNoRef : ClaimInfo := mkClaim "g/v1/dbs" "ns" "db3" "" ""

def enrichXR : XRInfo := mkXR "g/v1/xdbs" "" "xr-abc" "comp-prod"

def enrichStore : MemoryStore :=
  { claims := [("ns/db1", enrichClaimRef), ("ns/db3", enrichClaimNoRef)],
    xrs := [("xr-abc", enrichXR)] }

/-- Witness for C2's theorem at a concrete store: a resolving claim receives
the XR's composition, and a reference-free claim is unchanged. -/
theorem enrichClaimCompositions_witness :
    (("ns/db1", enrichClaimRef) ∈ enrichStore.claims) ∧
    (enrichClaimRef.XRRef ≠ "") ∧
    (lookupEntry enrichStore.xrs enrichClaimRef.XRRef = some enrichXR) ∧
    (("ns/db1", { enrichClaimRef with Composition := enrichXR.Composition })
        ∈ enrichStore.EnrichClaimCompositions.claims) ∧
    (("ns/db3", enrichClaimNoRef) ∈ enrichStore.claims) ∧
    (enrichClaimNoRef.XRRef = "") ∧
    (("ns/db3", enrichClaimNoRef) ∈ enrichStore.EnrichClaimCompositions.claims) :=
  have hm1 : ("ns/db1", enrichClaimRef) ∈ enrichStore.claims := by decide
  have hne : enrichClaimRef.XRRef ≠ "" := by decide
  have hlk : lookupEntry enrichStore.xrs enrichClaimRef.XRRef = some enrichXR := by decide
  have hm3 : ("ns/db3", enrichClaimNoRef) ∈ enrichStore.claims := by decide
  have hr3 : enrichClaimNoRef.XRRef = "" := by decide
  ⟨hm1, hne, hlk,
    (enrichClaimCompositions_spec enrichStore).1 ("ns/db1", enrichClaimRef) hm1 enrichXR hne hlk,
    hm3, hr3,
    (enrichClaimCompositions_spec enrichStore).2 ("ns/db3", enrichClaimNoRef) hm3 (Or.inl hr3)⟩

def enrichClaimPre : ClaimInfo := mkClaim "g/v1/dbs" "ns" "a" "" "pre"

/-- C2 counterexample: a claim with an empty reference and a non-empty
pre-enrichment composition (set from a composition label on the claim object
itself, see UnstructuredToClaimWithKeys) keeps that composition after
EnrichClaimCompositions; the claim as stated requires it to be empty. -/
theorem enrichClaimCompositions_cex :
    enrichClaimPre.XRRef = "" ∧
    enrichClaimPre.Composition ≠ "" ∧
    (MemoryStore.mk [("ns/a", enrichClaimPre)] []).EnrichClaimCompositions.SnapshotClaims
      = [enrichClaimPre] := by
  decide

theorem xrKey_slash {x : XRInfo} (h : x.Namespace ≠ "") :
    ('/' : Char) ∈ (xrKey x).data := by
  unfold xrKey objectKey
  rw [if_neg h]
  simp [String.data_append]

/-- C10 (amended): with a well-formed XR map and a reference R that contains
no '/' separator (Kubernetes object names cannot contain one), the lookup
performed by EnrichClaimCompositions resolves R exactly when some stored XR
has an empty namespace and name R; the key of any XR stored with a non-empty
namespace never equals such an R; and a claim whose XRRef is R receives the
resolved XR's composition name, or keeps its own when R does not resolve. -/
theorem enrich_bare_name (s : MemoryStore) (R : String) (hwf : MapWF xrKey s.xrs)
    (hne : R ≠ "") (hslash : ('/' : Char) ∉ R.data) :
    ((lookupEntry s.xrs R).isSome ↔ ∃ p ∈ s.xrs, p.2.Namespace = "" ∧ p.2.Name = R) ∧
    (∀ p ∈ s.xrs, p.2.Namespace ≠ "" → p.1 ≠ R) ∧
    (∀ c : ClaimInfo, c.XRRef = R →
        (enrichOne s.xrs c).Composition =
          match lookupEntry s.xrs R with
          | some xr => xr.Composition
          | none => c.Composition) := by
  have hkey : ∀ p ∈ s.xrs, p.2.Namespace ≠ "" → p.1 ≠ R := by
    intro p hp hns hR
    apply hslash
    rw [← hR, hwf.2 p hp]
    exact xrKey_slash hns
  refine ⟨⟨?_, ?_⟩, hkey, ?_⟩
  · intro hsome
    obtain ⟨xr, hxr⟩ := Option.isSome_iff_exists.mp hsome
    have hmem : (R, xr) ∈ s.xrs := (mem_iff_lookupEntry hwf.1).mpr hxr
    have hns : xr.Namespace = "" := by
      by_contra hns
      exact hkey (R, xr) hmem hns rfl
    refine ⟨(R, xr), hmem, hns, ?_⟩
    have h1 : (R, xr).1 = xrKey xr := hwf.2 _ hmem
    simpa [xrKey, objectKey, hns] using h1.symm
  · rintro ⟨p, hp, hns, hname⟩
    have h2 : p.1 = R := by
      rw [hwf.2 p hp]
      unfold xrKey objectKey
      rw [if_pos hns, hname]
    rw [Option.isSome_iff_ne_none]
    intro hnone
    exact ((lookupEntry_eq_none _ _).mp hnone) (h2 ▸ List.mem_map_of_mem Prod.fst hp)
  · intro c hc
    rw [enrichOne, if_neg (by rw [hc]; exact hne), hc]
    cases h : lookupEntry s.xrs R <;> simp [h]

/-- Witness for C10's theorem at a concrete one-XR store and a slash-free
reference. -/
theorem enrich_bare_name_witness :
    (MapWF xrKey enrichStore.xrs) ∧
    (("xr-abc" : String) ≠ "") ∧
    (('/' : Char) ∉ ("xr-abc" : String).data) ∧
    (((lookupEntry enrichStore.xrs "xr-abc").isSome ↔
        ∃ p ∈ enrichStore.xrs, p.2.Namespace = "" ∧ p.2.Name = "xr-abc") ∧
      (∀ p ∈ enrichStore.xrs, p.2.Namespace ≠ "" → p.1 ≠ "xr-abc") ∧
      (∀ c : ClaimInfo, c.XRRef = "xr-abc" →
        (enrichOne enrichStore.xrs c).Composition =
          match lookupEntry enrichStore.xrs "xr-abc" with
          | some xr => xr.Composition
          | none => c.Composition)) :=
  have h1 : MapWF xrKey enrichStore.xrs := ⟨by decide, by decide⟩
  have h2 : ("xr-abc" : String) ≠ "" := by decide
  have h3 : ('/' : Char) ∉ ("xr-abc" : String).data := by decide
  ⟨h1, h2, h3, enrich_bare_name enrichStore "xr-abc" h1 h2 h3⟩

def slashXR : XRInfo := mkXR "g/v1/xdbs" "other-ns" "x1" "comp-x"

def slashClaim : ClaimInfo := mkClaim "g/v1/dbs" "ns" "c1" "other-ns/x1" ""

def slashStore : MemoryStore :=
  { claims := [("ns/c1", slashClaim)], xrs := [("other-ns/x1", slashXR)] }

/-- C10 counterexample: a claim whose reference literally contains the '/'
separator resolves against an XR stored under a namespaced key, although no
stored XR has an empty namespace and that name; the claim's unrestricted
"enriched iff a bare-name composite exists" is therefore false. -/
theorem enrich_bare_name_cex :
    slashClaim.XRRef = "other-ns/x1" ∧
    (∀ p ∈ slashStore.xrs, ¬(p.2.Namespace = "" ∧ p.2.Name = "other-ns/x1")) ∧
    slashStore.EnrichClaimCompositions.SnapshotClaims =
      [{ slashClaim with Composition := "comp-x" }] ∧
    xrKey slashXR = "other-ns/x1" ∧
    slashClaim.Composition ≠ "comp-x" := by
  decide

/-- GroupVersionResource (k8s schema.GroupVersionResource). -/
structure GVR where
  group : String
  version : String
  resource : String
deriving DecidableEq, Repr

/-- GVRString (pkg/kube/convert.go). -/
def GVRString (gvr : GVR) : String :=
  gvr.group ++ "/" ++ gvr.version ++ "/" ++ gvr.resource

/-- Central configuration (pkg/config/config.go), restricted to the fields
the polling core reads; HTTP and S3 wiring fields are omitted. -/
structure Config where
  ClaimGVRs : List GVR
  XRGVRs : List GVR
  Namespaces : List String
  CreatorAnnotationKey : String
  TeamAnnotationKey : String
  CompositionLabelKey : String
deriving DecidableEq, Repr

/-- NamespaceConfig (pkg/config/namespace_config.go). -/
structure NamespaceConfig where
  Namespace : String
  ConfigMapName : String
  ClaimGVRs : List GVR
  XRGVRs : List GVR
  CreatorAnnotationKey : String
  TeamAnnotationKey : String
deriving DecidableEq, Repr

/-- ConvertKeys (pkg/kube/convert.go). -/
structure ConvertKeys where
  CreatorAnnotationKey : String
  TeamAnnotationKey : String
  CompositionLabelKey : String
  Source : String
deriving DecidableEq, Repr

/-- KeysFromConfig (pkg/kube/convert.go). -/
def KeysFromConfig (cfg : Config) : ConvertKeys :=
  { CreatorAnnotationKey := cfg.CreatorAnnotationKey,
    TeamAnnotationKey := cfg.TeamAnnotationKey,
    CompositionLabelKey := cfg.CompositionLabelKey,
    Source := "central" }

/-- KeysFromNamespaceConfig: CompositionLabelKey is not overridable
per-namespace; it comes from the central config (the `some` case mirrors the
non-nil check in Go). -/
def KeysFromNamespaceConfig (nsCfg : NamespaceConfig) (centralCfg : Option Config) :
    ConvertKeys :=
  let keys : ConvertKeys :=
    { CreatorAnnotationKey := nsCfg.CreatorAnnotationKey,
      TeamAnnotationKey := nsCfg.TeamAnnotationKey,
      CompositionLabelKey := "",
      Source := "namespace" }
  match centralCfg with
  | some cfg => { keys with CompositionLabelKey := cfg.CompositionLabelKey }
  | none => keys

/-- Status condition of a Kubernetes object (the type/status/reason triple
read by extractReadyCondition). -/
structure KCondition where
  ctype : String
  status : String
  reason : String
deriving DecidableEq, Repr

/-- Abstraction of the unstructured Kubernetes object fields the converter
reads: kind, namespace (field `ns`), name, annotations, labels, the
spec.resourceRef.name string (empty when absent), status.conditions, and a
numeric creation timestamp. -/
structure KObj where
  kind : String
  ns : String
  name : String
  annotations : List (String × String)
  labels : List (String × String)
  resourceRefName : String
  conditions : List KCondition
  creationTimestamp : Nat
deriving DecidableEq, Repr

/-- Go map[string]string read: missing keys yield the empty string. -/
def lookupStr (m : List (String × String)) (k : String) : String :=
  (lookupEntry m k).getD ""

/-- strings.EqualFold, modelled as lower-casing (adequate for the ASCII
strings it is applied to here). -/
def eqFold (a b : String) : Bool :=
  a.toLower == b.toLower

/-- extractReadyCondition (pkg/kube/convert.go): first condition of type
"Ready" yields (status equals "True" case-insensitively, reason); otherwise
(false, ""). -/
def extractReadyCondition : List KCondition → Bool × String
  | [] => (false, "")
  | c :: rest =>
      if c.ctype = "Ready" then (eqFold c.status "True", c.reason)
      else extractReadyCondition rest

/-- resourceToKind (pkg/kube/convert.go): trim a trailing 's', capitalise the
first letter.  (The Go code would panic via kind[:1] on the input "s"; the
total model returns "" there.) -/
def resourceToKind (resource : String) : String :=
  if resource = "" then ""
  else
    let kind := if resource.endsWith "s" then resource.dropRight 1 else resource
    (kind.take 1).toUpper ++ kind.drop 1

/-- UnstructuredToClaimWithKeys (pkg/kube/convert.go). -/
def UnstructuredToClaimWithKeys (obj : KObj) (gvr : GVR) (keys : ConvertKeys) : ClaimInfo :=
  let ready := extractReadyCondition obj.conditions
  { GVR := GVRString gvr
    Group := gvr.group
    Kind := if obj.kind = "" then resourceToKind gvr.resource else obj.kind
    Namespace := obj.ns
    Name := obj.name
    Creator :=
      if keys.CreatorAnnotationKey ≠ "" then lookupStr obj.annotations keys.CreatorAnnotationKey
      else ""
    Team :=
      if keys.TeamAnnotationKey ≠ "" then lookupStr obj.annotations keys.TeamAnnotationKey
      else ""
    Composition :=
      if keys.CompositionLabelKey ≠ "" ∧ lookupStr obj.labels keys.CompositionLabelKey ≠ ""
      then lookupStr obj.labels keys.CompositionLabelKey
      else ""
    Source := keys.Source
    Ready := ready.1
    Reason := ready.2
    CreatedAt := obj.creationTimestamp
    XRRef := obj.resourceRefName }

/-- UnstructuredToXRWithKeys (pkg/kube/convert.go). -/
def UnstructuredToXRWithKeys (obj : KObj) (gvr : GVR) (keys : ConvertKeys) : XRInfo :=
  let ready := extractReadyCondition obj.conditions
  { GVR := GVRString gvr
    Group := gvr.group
    Kind := if obj.kind = "" then resourceToKind gvr.resource else obj.kind
    Namespace := obj.ns
    Name := obj.name
    Composition :=
      if keys.CompositionLabelKey ≠ "" then lookupStr obj.labels keys.CompositionLabelKey
      else ""
    Source := keys.Source
    Ready := ready.1
    Reason := ready.2
    CreatedAt := obj.creationTimestamp }

/-- UnstructuredToClaim delegates to the keyed variant with the central keys. -/
def UnstructuredToClaim (obj : KObj) (gvr : GVR) (cfg : Config) : ClaimInfo :=
  UnstructuredToClaimWithKeys obj gvr (KeysFromConfig cfg)

/-- UnstructuredToXR delegates to the keyed variant with the central keys. -/
def UnstructuredToXR (obj : KObj) (gvr : GVR) (cfg : Config) : XRInfo :=
  UnstructuredToXRWithKeys obj gvr (KeysFromConfig cfg)

/-- Go strings.Split with a one-character separator, on the character list
of a string (structural, so that concrete configurations evaluate). -/
def splitOnChar (sep : Char) : List Char → List (List Char)
  | [] => [[]]
  | c :: rest =>
      let r := splitOnChar sep rest
      if c = sep then [] :: r
      else
        match r with
        | [] => [[c]]
        | h :: t => (c :: h) :: t

/-- ASCII whitespace, the cases relevant to Go strings.TrimSpace here. -/
def isSpaceChar (c : Char) : Bool :=
  c = ' ' || c = '\t' || c = '\n' || c = '\r'

/-- Go strings.TrimSpace on a character list. -/
def trimChars (l : List Char) : List Char :=
  ((l.dropWhile isSpaceChar).reverse.dropWhile isSpaceChar).reverse

/-- Rejoin split segments with the separator (the tail segment of Go
strings.SplitN keeps its interior separators). -/
def joinWithChar (sep : Char) : List (List Char) → List Char
  | [] => []
  | [l] => l
  | l :: rest => l ++ sep :: joinWithChar sep rest

/-- splitAndTrim (pkg/config/config.go): split on commas, trim whitespace,
drop empties. -/
def splitAndTrim (s : String) : List String :=
  ((splitOnChar ',' s.data).map (fun l => String.mk (trimChars l))).filter
    (fun r => r != "")

/-- ParseGVR (pkg/config/config.go): SplitN(s, "/", 3) must yield three
segments, each non-empty after trimming. -/
def ParseGVR (s : String) : Except String GVR :=
  match splitOnChar '/' s.data with
  | g :: v :: rest =>
      if rest.isEmpty then Except.error ("invalid GVR " ++ s)
      else
        let g := String.mk (trimChars g)
        let v := String.mk (trimChars v)
        let r := String.mk (trimChars (joinWithChar '/' rest))
        if g = "" ∨ v = "" ∨ r = "" then Except.error ("invalid GVR " ++ s)
        else Except.ok { group := g, version := v, resource := r }
  | _ => Except.error ("invalid GVR " ++ s)

/-- The loop body of ParseGVRs: parse each part, dropping duplicates by
group/version/resource key. -/
def parseGVRsLoop : List String → List String → List GVR → Except String (List GVR)
  | [], _, acc => Except.ok acc.reverse
  | p :: rest, seen, acc =>
      match ParseGVR p with
      | Except.error e => Except.error e
      | Except.ok gvr =>
          if seen.contains (GVRString gvr) then parseGVRsLoop rest seen acc
          else parseGVRsLoop rest (GVRString gvr :: seen) (gvr :: acc)

/-- ParseGVRs (pkg/config/config.go): comma-separated GVR list; an empty
list is an error. -/
def ParseGVRs (raw : String) : Except String (List GVR) :=
  let parts := splitAndTrim raw
  if parts.isEmpty then Except.error "empty GVR list"
  else parseGVRsLoop parts [] []

/-- The fields of a corev1.ConfigMap the watcher and parser read. -/
structure ConfigMap where
  ns : String
  name : String
  data : List (String × String)
  labels : List (String × String)
deriving DecidableEq, Repr

/-- The per-field GVR parsing of ParseNamespaceConfigMap: a missing or empty
data entry yields the empty list, a present entry is parsed. -/
def parseGVRField (cm : ConfigMap) (field : String) : Except String (List GVR) :=
  match lookupEntry cm.data field with
  | some raw => if raw = "" then Except.ok [] else ParseGVRs raw
  | none => Except.ok []

/-- ParseNamespaceConfigMap (pkg/config/namespace_config.go).  `none` models
the Go nil-pointer argument. -/
def ParseNamespaceConfigMap (cm? : Option ConfigMap) (fallback : Option Config) :
    Except String NamespaceConfig :=
  match cm? with
  | none => Except.error "ConfigMap is nil"
  | some cm =>
      match parseGVRField cm "CLAIM_GVRS" with
      | Except.error e => Except.error e
      | Except.ok claimGVRs =>
          match parseGVRField cm "XR_GVRS" with
          | Except.error e => Except.error e
          | Except.ok xrGVRs =>
              if claimGVRs.isEmpty ∧ xrGVRs.isEmpty then
                Except.error "must specify at least one of CLAIM_GVRS or XR_GVRS"
              else
                let creator0 := lookupStr cm.data "CREATOR_ANNOTATION_KEY"
                let team0 := lookupStr cm.data "TEAM_ANNOTATION_KEY"
                Except.ok
                  { Namespace := cm.ns
                    ConfigMapName := cm.name
                    ClaimGVRs := claimGVRs
                    XRGVRs := xrGVRs
                    CreatorAnnotationKey :=
                      if creator0 = "" then
                        match fallback with
                        | some fb => fb.CreatorAnnotationKey
                        | none => creator0
                      else creator0
                    TeamAnnotationKey :=
                      if team0 = "" then
                        match fallback with
                        | some fb => fb.TeamAnnotationKey
                        | none => team0
                      else team0 }

instance {ε α : Type} [DecidableEq ε] [DecidableEq α] : DecidableEq (Except ε α)
  | Except.error e, Except.error f =>
      if h : e = f then isTrue (by rw [h]) else isFalse (fun hc => h (Except.error.inj hc))
  | Except.error _, Except.ok _ => isFalse Except.noConfusion
  | Except.ok _, Except.error _ => isFalse Except.noConfusion
  | Except.ok a, Except.ok b =>
      if h : a = b then isTrue (by rw [h]) else isFalse (fun hc => h (Except.ok.inj hc))

/-- The registry key of ConfigMapWatcher: namespace + "/" + name. -/
def cmKey (cm : ConfigMap) : String :=
  cm.ns ++ "/" ++ cm.name

/-- ConfigMapWatcher.upsert: a valid parse replaces the entry for the key; a
parse failure deletes any existing entry for the key. -/
def watcherUpsert (fallback : Option Config) (configs : List (String × NamespaceConfig))
    (cm : ConfigMap) : List (String × NamespaceConfig) :=
  match ParseNamespaceConfigMap (some cm) fallback with
  | Except.error _ => eraseKey configs (cmKey cm)
  | Except.ok nsCfg => insertEntry configs (cmKey cm) nsCfg

/-- ConfigMapWatcher.onDelete: unconditional removal of the key. -/
def watcherDelete (configs : List (String × NamespaceConfig)) (cm : ConfigMap) :
    List (String × NamespaceConfig) :=
  eraseKey configs (cmKey cm)

/-- Snapshot (store.Snapshot): the persistence envelope. -/
structure Snapshot where
  Claims : List ClaimInfo
  XRs : List XRInfo
  PersistedAt : Nat
deriving DecidableEq, Repr

/-- maxSnapshotSize (pkg/store/s3store.go): 100 MiB. -/
def maxSnapshotSize : Nat := 100 <<< 20

/-- S3Store.Persist: the envelope written to S3 (JSON encoding abstracted as
the Snapshot value itself). -/
def S3Persist (s : MemoryStore) (now : Nat) : Snapshot :=
  { Claims := s.SnapshotClaims, XRs := s.SnapshotXRs, PersistedAt := now }

/-- The distinct GVR strings of a record list.  Go iterates the groups map in
unspecified order; the C5 theorem is order-insensitive. -/
def gvrsOf (tag : α → String) (items : List α) : List String :=
  (items.map tag).dedup

/-- The replay loop of S3Store.Restore: group records by their recorded GVR
and replay each group through the normal replace call. -/
def replaySnapshot (mem : MemoryStore) (snap : Snapshot) : MemoryStore :=
  let mem1 := (gvrsOf ClaimInfo.GVR snap.Claims).foldl
    (fun acc g => acc.ReplaceClaims g (snap.Claims.filter (fun c => c.GVR == g))) mem
  (gvrsOf XRInfo.GVR snap.XRs).foldl
    (fun acc g => acc.ReplaceXRs g (snap.XRs.filter (fun x => x.GVR == g))) mem1

/-- Outcome of the GetObject call plus body read, as seen by Restore:
the key may be absent, GetObject may fail otherwise, reading the body may
fail, or a body of a given size arrives and either JSON-decodes to a
Snapshot or does not. -/
inductive S3GetOutcome where
  | noSuchKey
  | getError (e : String)
  | readError (e : String)
  | body (size : Nat) (decoded : Option Snapshot)
deriving DecidableEq, Repr

/-- The error cases Restore can surface. -/
inductive RestoreError where
  | getFailed (e : String)
  | readFailed (e : String)
  | tooLarge
  | decodeFailed
deriving DecidableEq, Repr

/-- S3Store.Restore: NoSuchKey is not an error and leaves the store as it
was; an oversize body is rejected before decoding; all other failures are
surfaced.  The returned store is untouched on every error path. -/
def S3Restore (mem : MemoryStore) (out : S3GetOutcome) :
    MemoryStore × Option RestoreError :=
  match out with
  | .noSuchKey => (mem, none)
  | .getError e => (mem, some (.getFailed e))
  | .readError e => (mem, some (.readFailed e))
  | .body size decoded =>
      if size > maxSnapshotSize then (mem, some .tooLarge)
      else
        match decoded with
        | none => (mem, some .decodeFailed)
        | some snap => (replaySnapshot mem snap, none)

/-- The upstream list API: one call per (GVR, namespace) pair; "" means
cluster-wide.  Pagination sits below this abstraction: the Go paging loop
concatenates all pages of one logical list call. -/
structure Cluster where
  list : GVR → String → Except String (List KObj)

/-- One list call performed during a poll cycle, together with the origin
tag of the ConvertKeys used for its results and whether it lists claims or
XRs. -/
structure ListOp where
  gvr : GVR
  ns : String
  origin : String
  isClaim : Bool
deriving DecidableEq, Repr

/-- The error-tolerant accumulation of per-namespace list results: failed
results contribute nothing, successful ones are appended. -/
def collectOk {beta gamma : Type} (acc : List beta) (r : Except gamma (List beta)) : List beta :=
  match r with
  | Except.ok cs => acc ++ cs
  | Except.error _ => acc

/-- Whether an Except result is an error. -/
def exceptErr {beta gamma : Type} (r : Except gamma beta) : Bool :=
  match r with
  | Except.ok _ => false
  | Except.error _ => true

/-- Whether the underlying list call of an op succeeds. -/
def listOk (cl : Cluster) (op : ListOp) : Bool :=
  match cl.list op.gvr op.ns with
  | Except.ok _ => true
  | Except.error _ => false

/-- Poller.pollClaimsScoped: list one claim GVR in one namespace with the
given keys; on error the store is untouched. -/
def pollClaimsScoped (cl : Cluster) (s : MemoryStore) (gvr : GVR) (ns : String)
    (keys : ConvertKeys) : MemoryStore × Bool × List ListOp :=
  match cl.list gvr ns with
  | Except.error _ => (s, true, [⟨gvr, ns, keys.Source, true⟩])
  | Except.ok objs =>
      (s.ReplaceClaims (GVRString gvr)
          (objs.map (fun o => UnstructuredToClaimWithKeys o gvr keys)),
        false, [⟨gvr, ns, keys.Source, true⟩])

/-- Poller.pollXRsWithKeys: namespace "" lists cluster-wide. -/
def pollXRsWithKeys (cl : Cluster) (s : MemoryStore) (gvr : GVR) (ns : String)
    (keys : ConvertKeys) : MemoryStore × Bool × List ListOp :=
  match cl.list gvr ns with
  | Except.error _ => (s, true, [⟨gvr, ns, keys.Source, false⟩])
  | Except.ok objs =>
      (s.ReplaceXRs (GVRString gvr)
          (objs.map (fun o => UnstructuredToXRWithKeys o gvr keys)),
        false, [⟨gvr, ns, keys.Source, false⟩])

/-- Poller.listClaims: one logical list call converted with the central keys. -/
def listClaims (cl : Cluster) (cfg : Config) (gvr : GVR) (ns : String) :
    Except String (List ClaimInfo) :=
  (cl.list gvr ns).map (List.map (fun o => UnstructuredToClaim o gvr cfg))

/-- Poller.listXRs. -/
def listXRs (cl : Cluster) (cfg : Config) (gvr : GVR) (ns : String) :
    Except String (List XRInfo) :=
  (cl.list gvr ns).map (List.map (fun o => UnstructuredToXR o gvr cfg))

/-- Poller.pollClaims: central polling of one claim GVR; with a namespace
filter the store is still updated with whatever succeeded while an error is
reported. -/
def pollClaims (cl : Cluster) (cfg : Config) (s : MemoryStore) (gvr : GVR) :
    MemoryStore × Bool × List ListOp :=
  if cfg.Namespaces.isEmpty then
    match listClaims cl cfg gvr "" with
    | Except.error _ => (s, true, [⟨gvr, "", "central", true⟩])
    | Except.ok claims =>
        (s.ReplaceClaims (GVRString gvr) claims, false, [⟨gvr, "", "central", true⟩])
  else
    let results := cfg.Namespaces.map (fun ns => listClaims cl cfg gvr ns)
    let allClaims := results.foldl collectOk []
    let hadErr := results.any exceptErr
    (s.ReplaceClaims (GVRString gvr) allClaims, hadErr,
      cfg.Namespaces.map (fun ns => ⟨gvr, ns, "central", true⟩))

/-- Poller.pollXRs: central polling of one XR GVR. -/
def pollXRs (cl : Cluster) (cfg : Config) (s : MemoryStore) (gvr : GVR) :
    MemoryStore × Bool × List ListOp :=
  if cfg.Namespaces.isEmpty then
    match listXRs cl cfg gvr "" with
    | Except.error _ => (s, true, [⟨gvr, "", "central", false⟩])
    | Except.ok xrs =>
        (s.ReplaceXRs (GVRString gvr) xrs, false, [⟨gvr, "", "central", false⟩])
  else
    let results := cfg.Namespaces.map (fun ns => listXRs cl cfg gvr ns)
    let allXRs := results.foldl collectOk []
    let hadErr := results.any exceptErr
    (s.ReplaceXRs (GVRString gvr) allXRs, hadErr,
      cfg.Namespaces.map (fun ns => ⟨gvr, ns, "central", false⟩))

/-- Accumulator for a poll cycle: the store, the error flag, and the list
operations performed so far. -/
structure PollAcc where
  store : MemoryStore
  hadErrors : Bool
  trace : List ListOp

/-- Threads one sub-poll result into the accumulator. -/
def stepAcc (a : PollAcc) (r : MemoryStore × Bool × List ListOp) : PollAcc :=
  { store := r.1, hadErrors := a.hadErrors || r.2.1, trace := a.trace ++ r.2.2 }

/-- Poller.pollNamespaceConfigsList: for each namespace config, poll its XR
GVRs cluster-wide, then its claim GVRs scoped to the owning namespace,
skipping any GVR present in the corresponding central set. -/
def nsConfigsFold (cl : Cluster) (cfg : Config) (nsConfigs : List NamespaceConfig)
    (centralClaimGVRs centralXRGVRs : List String) (a0 : PollAcc) : PollAcc :=
  nsConfigs.foldl (fun acc nsCfg =>
    let keys := KeysFromNamespaceConfig nsCfg (some cfg)
    let acc1 := nsCfg.XRGVRs.foldl (fun a gvr =>
      if centralXRGVRs.contains (GVRString gvr) then a
      else stepAcc a (pollXRsWithKeys cl a.store gvr "" keys)) acc
    nsCfg.ClaimGVRs.foldl (fun a gvr =>
      if centralClaimGVRs.contains (GVRString gvr) then a
      else stepAcc a (pollClaimsScoped cl a.store gvr nsCfg.Namespace keys)) acc1) a0

def pollNamespaceConfigsList (cl : Cluster) (cfg : Config)
    (nsConfigs : List NamespaceConfig) (centralClaimGVRs centralXRGVRs : List String)
    (s : MemoryStore) : MemoryStore × Bool × List ListOp :=
  let acc := nsConfigsFold cl cfg nsConfigs centralClaimGVRs centralXRGVRs
    { store := s, hadErrors := false, trace := [] }
  (acc.store, acc.hadErrors, acc.trace)

/-- Result of one poll cycle. -/
structure PollResult where
  store : MemoryStore
  hadErrors : Bool
  trace : List ListOp
  didPersist : Bool
  durable : Option Snapshot

/-- The central XR loop of Poller.poll (XRs are polled first so composition
data exists before claims are finalised). -/
def pollCentralXRs (cl : Cluster) (cfg : Config) (a : PollAcc) : PollAcc :=
  cfg.XRGVRs.foldl (fun a gvr => stepAcc a (pollXRs cl cfg a.store gvr)) a

/-- The central claim loop of Poller.poll. -/
def pollCentralClaims (cl : Cluster) (cfg : Config) (a : PollAcc) : PollAcc :=
  cfg.ClaimGVRs.foldl (fun a gvr => stepAcc a (pollClaims cl cfg a.store gvr)) a

/-- The list/replace part of Poller.poll: central XRs, central claims, then
the namespace configs with the central GVR sets for de-duplication. -/
def pollCycleAcc (cl : Cluster) (cfg : Config) (nsConfigs : List NamespaceConfig)
    (s : MemoryStore) : PollAcc :=
  let a1 := pollCentralXRs cl cfg { store := s, hadErrors := false, trace := [] }
  let a2 := pollCentralClaims cl cfg a1
  stepAcc a2
    (pollNamespaceConfigsList cl cfg nsConfigs (cfg.ClaimGVRs.map GVRString)
      (cfg.XRGVRs.map GVRString) a2.store)

/-- Poller.poll: one full cycle.  `persistConfigured` models the
PersistentStore type assertion; `putOk` models whether the PutObject of the
Persist call succeeds; `durable` is the durable snapshot object before the
cycle.  After the list/replace stage, claims are enriched exactly once, and
persistence runs only when the whole cycle was error-free. -/
def poll (cl : Cluster) (cfg : Config) (nsConfigs : List NamespaceConfig)
    (persistConfigured : Bool) (putOk : Bool) (durable : Option Snapshot)
    (now : Nat) (s : MemoryStore) : PollResult :=
  let a3 := pollCycleAcc cl cfg nsConfigs s
  let s4 := a3.store.EnrichClaimCompositions
  let doPersist := !a3.hadErrors && persistConfigured
  { store := s4
    hadErrors := a3.hadErrors
    trace := a3.trace
    didPersist := doPersist
    durable := if doPersist && putOk then some (S3Persist s4 now) else durable }

theorem mem_replacePart_values {key tag : α → String} {m : List (String × α)} {g : String}
    {items : List α} {p : String × α} (hp : p ∈ replacePart key tag m g items) :
    p ∈ m ∨ p.2 ∈ items := by
  rcases mem_upsertAll key (List.mem_of_mem_filter hp) with h | ⟨w, hw, hpw⟩
  · exact Or.inl h
  · exact Or.inr (by rw [hpw]; exact hw)

theorem replaceClaims_values (s : MemoryStore) (gvr : String) (items : List ClaimInfo) :
    ∀ p ∈ (s.ReplaceClaims gvr items).claims, p ∈ s.claims ∨ p.2 ∈ items :=
  fun _ hp => mem_replacePart_values hp

theorem replaceXRs_values (s : MemoryStore) (gvr : String) (items : List XRInfo) :
    ∀ p ∈ (s.ReplaceXRs gvr items).xrs, p ∈ s.xrs ∨ p.2 ∈ items :=
  fun _ hp => mem_replacePart_values hp

theorem enrichOne_fields (xrs : List (String × XRInfo)) (c : ClaimInfo) :
    (enrichOne xrs c).GVR = c.GVR ∧ (enrichOne xrs c).Source = c.Source ∧
    (enrichOne xrs c).Namespace = c.Namespace := by
  unfold enrichOne
  by_cases h : c.XRRef = ""
  · simp [h]
  · rw [if_neg h]
    cases hl : lookupEntry xrs c.XRRef <;> simp

/-- Generic preservation of a predicate along an accumulator fold. -/
theorem foldl_preserves {β : Type} (P : PollAcc → Prop) (step : PollAcc → β → PollAcc)
    (l : List β) (hstep : ∀ a x, x ∈ l → P a → P (step a x)) (a : PollAcc) (ha : P a) :
    P (l.foldl step a) := by
  induction l generalizing a with
  | nil => exact ha
  | cons x rest ih =>
      exact ih (fun a y hy => hstep a y (by simp [hy])) _ (hstep a x (by simp) ha)

theorem any_eq_bnot_all {β : Type} {l : List β} {p q : β → Bool}
    (h : ∀ x ∈ l, p x = !q x) :
    l.any p = !l.all q := by
  induction l with
  | nil => rfl
  | cons x rest ih =>
      simp only [List.any_cons, List.all_cons, h x (by simp),
        ih (fun y hy => h y (by simp [hy])), Bool.not_and]

theorem any_map_eq_bnot_all_map {β γ σ : Type} {l : List σ} {f : σ → β} {g : σ → γ}
    {p : β → Bool} {q : γ → Bool} (h : ∀ x ∈ l, p (f x) = !q (g x)) :
    (l.map f).any p = !((l.map g).all q) := by
  induction l with
  | nil => rfl
  | cons x rest ih =>
      simp only [List.map_cons, List.any_cons, List.all_cons, h x (by simp),
        ih (fun y hy => h y (by simp [hy])), Bool.not_and]

/-- Elements of the error-tolerant result concatenation, starting from any
accumulator, all satisfy P when P holds on the accumulator and on every
successful result. -/
theorem mem_results_fold_gen {β γ : Type} (P : β → Prop) :
    ∀ (results : List (Except γ (List β))) (acc : List β),
      (∀ r ∈ results, ∀ l, r = Except.ok l → ∀ x ∈ l, P x) →
      (∀ x ∈ acc, P x) →
      ∀ x ∈ results.foldl collectOk acc, P x
  | [], _, _, hacc => hacc
  | r :: rest, acc, h, hacc => by
      intro x hx
      simp only [List.foldl_cons] at hx
      cases hr : r with
      | error e =>
          simp only [hr, collectOk] at hx
          exact mem_results_fold_gen P rest acc (fun r' hr' => h r' (by simp [hr'])) hacc x hx
      | ok cs =>
          simp only [hr, collectOk] at hx
          refine mem_results_fold_gen P rest (acc ++ cs)
            (fun r' hr' => h r' (by simp [hr'])) ?_ x hx
          intro y hy
          rcases List.mem_append.mp hy with hy | hy
          · exact hacc y hy
          · exact h r (by simp) cs hr y hy

/-- Elements of the error-tolerant result concatenation all come from some
successful result. -/
theorem mem_results_fold {β γ : Type} (results : List (Except γ (List β))) (P : β → Prop)
    (h : ∀ r ∈ results, ∀ l, r = Except.ok l → ∀ x ∈ l, P x) :
    ∀ x ∈ results.foldl collectOk [], P x :=
  mem_results_fold_gen P results [] h (by simp)

/-- Normal form of pollClaimsScoped: trace, XR map preservation, and the two
possible stores. -/
theorem pollClaimsScoped_shape (cl : Cluster) (s : MemoryStore) (gvr : GVR) (ns : String)
    (keys : ConvertKeys) :
    ((pollClaimsScoped cl s gvr ns keys).2.2 = [⟨gvr, ns, keys.Source, true⟩]) ∧
    ((pollClaimsScoped cl s gvr ns keys).1.xrs = s.xrs) ∧
    ((pollClaimsScoped cl s gvr ns keys).1 = s ∨
      ∃ objs, cl.list gvr ns = Except.ok objs ∧
        (pollClaimsScoped cl s gvr ns keys).1 =
          s.ReplaceClaims (GVRString gvr)
            (objs.map (fun o => UnstructuredToClaimWithKeys o gvr keys))) := by
  cases h : cl.list gvr ns with
  | error e => simp [pollClaimsScoped, h]
  | ok objs =>
      refine ⟨by simp [pollClaimsScoped, h], by simp [pollClaimsScoped, h, MemoryStore.ReplaceClaims], ?_⟩
      exact Or.inr ⟨objs, rfl, by simp [pollClaimsScoped, h]⟩

/-- Normal form of pollXRsWithKeys. -/
theorem pollXRsWithKeys_shape (cl : Cluster) (s : MemoryStore) (gvr : GVR) (ns : String)
    (keys : ConvertKeys) :
    ((pollXRsWithKeys cl s gvr ns keys).2.2 = [⟨gvr, ns, keys.Source, false⟩]) ∧
    ((pollXRsWithKeys cl s gvr ns keys).1.claims = s.claims) ∧
    ((pollXRsWithKeys cl s gvr ns keys).1 = s ∨
      ∃ objs, cl.list gvr ns = Except.ok objs ∧
        (pollXRsWithKeys cl s gvr ns keys).1 =
          s.ReplaceXRs (GVRString gvr)
            (objs.map (fun o => UnstructuredToXRWithKeys o gvr keys))) := by
  cases h : cl.list gvr ns with
  | error e => simp [pollXRsWithKeys, h]
  | ok objs =>
      refine ⟨by simp [pollXRsWithKeys, h], by simp [pollXRsWithKeys, h, MemoryStore.ReplaceXRs], ?_⟩
      exact Or.inr ⟨objs, rfl, by simp [pollXRsWithKeys, h]⟩

/-- Normal form of central pollClaims: ops are central claim ops for the
given GVR, the XR map is untouched, and the store either stays or is a
replace with centrally converted items. -/
theorem pollClaims_shape (cl : Cluster) (cfg : Config) (s : MemoryStore) (gvr : GVR) :
    (∀ op ∈ (pollClaims cl cfg s gvr).2.2,
        op.origin = "central" ∧ op.isClaim = true ∧ op.gvr = gvr) ∧
    ((pollClaims cl cfg s gvr).1.xrs = s.xrs) ∧
    ((pollClaims cl cfg s gvr).1 = s ∨
      ∃ items : List ClaimInfo,
        (∀ c ∈ items, c.Source = "central" ∧ c.GVR = GVRString gvr) ∧
        (pollClaims cl cfg s gvr).1 = s.ReplaceClaims (GVRString gvr) items) := by
  by_cases hns : cfg.Namespaces.isEmpty
  · cases h : cl.list gvr "" with
    | error e =>
        constructor
        · intro op hop
          simp [pollClaims, hns, listClaims, Except.map, h] at hop
          simp [hop]
        · exact ⟨by simp [pollClaims, hns, listClaims, Except.map, h], Or.inl (by simp [pollClaims, hns, listClaims, Except.map, h])⟩
    | ok objs =>
        constructor
        · intro op hop
          simp [pollClaims, hns, listClaims, Except.map, h] at hop
          simp [hop]
        · refine ⟨by simp [pollClaims, hns, listClaims, Except.map, h, MemoryStore.ReplaceClaims], ?_⟩
          refine Or.inr ⟨objs.map (fun o => UnstructuredToClaim o gvr cfg), ?_, ?_⟩
          · intro c hc
            obtain ⟨o, _, ho⟩ := List.mem_map.mp hc
            subst ho
            exact ⟨rfl, rfl⟩
          · simp [pollClaims, hns, listClaims, Except.map, h]
  · constructor
    · intro op hop
      simp only [pollClaims, hns, if_false] at hop
      obtain ⟨ns, _, hop⟩ := List.mem_map.mp hop
      subst hop
      exact ⟨rfl, rfl, rfl⟩
    · refine ⟨by simp [pollClaims, hns, MemoryStore.ReplaceClaims], ?_⟩
      refine Or.inr
        ⟨(cfg.Namespaces.map (fun ns => listClaims cl cfg gvr ns)).foldl collectOk [],
          ?_, by simp [pollClaims, hns]⟩
      refine mem_results_fold _ (fun c : ClaimInfo => c.Source = "central" ∧ c.GVR = GVRString gvr) ?_
      intro r hr l hrl x hx
      obtain ⟨ns, _, hr'⟩ := List.mem_map.mp hr
      rw [← hr'] at hrl
      unfold listClaims at hrl
      cases hcl : cl.list gvr ns with
      | error e => rw [hcl] at hrl; exact Except.noConfusion hrl
      | ok objs =>
          rw [hcl] at hrl
          simp only [Except.map, Except.ok.injEq] at hrl
          subst hrl
          obtain ⟨o, _, ho⟩ := List.mem_map.mp hx
          subst ho
          exact ⟨rfl, rfl⟩

/-- Normal form of central pollXRs. -/
theorem pollXRs_shape (cl : Cluster) (cfg : Config) (s : MemoryStore) (gvr : GVR) :
    (∀ op ∈ (pollXRs cl cfg s gvr).2.2,
        op.origin = "central" ∧ op.isClaim = false ∧ op.gvr = gvr) ∧
    ((pollXRs cl cfg s gvr).1.claims = s.claims) ∧
    ((pollXRs cl cfg s gvr).1 = s ∨
      ∃ items : List XRInfo,
        (∀ x ∈ items, x.Source = "central" ∧ x.GVR = GVRString gvr) ∧
        (pollXRs cl cfg s gvr).1 = s.ReplaceXRs (GVRString gvr) items) := by
  by_cases hns : cfg.Namespaces.isEmpty
  · cases h : cl.list gvr "" with
    | error e =>
        constructor
        · intro op hop
          simp [pollXRs, hns, listXRs, Except.map, h] at hop
          simp [hop]
        · exact ⟨by simp [pollXRs, hns, listXRs, Except.map, h], Or.inl (by simp [pollXRs, hns, listXRs, Except.map, h])⟩
    | ok objs =>
        constructor
        · intro op hop
          simp [pollXRs, hns, listXRs, Except.map, h] at hop
          simp [hop]
        · refine ⟨by simp [pollXRs, hns, listXRs, Except.map, h, MemoryStore.ReplaceXRs], ?_⟩
          refine Or.inr ⟨objs.map (fun o => UnstructuredToXR o gvr cfg), ?_, ?_⟩
          · intro x hx
            obtain ⟨o, _, ho⟩ := List.mem_map.mp hx
            subst ho
            exact ⟨rfl, rfl⟩
          · simp [pollXRs, hns, listXRs, Except.map, h]
  · constructor
    · intro op hop
      simp only [pollXRs, hns, if_false] at hop
      obtain ⟨ns, _, hop⟩ := List.mem_map.mp hop
      subst hop
      exact ⟨rfl, rfl, rfl⟩
    · refine ⟨by simp [pollXRs, hns, MemoryStore.ReplaceXRs], ?_⟩
      refine Or.inr
        ⟨(cfg.Namespaces.map (fun ns => listXRs cl cfg gvr ns)).foldl collectOk [],
          ?_, by simp [pollXRs, hns]⟩
      refine mem_results_fold _ (fun x : XRInfo => x.Source = "central" ∧ x.GVR = GVRString gvr) ?_
      intro r hr l hrl x hx
      obtain ⟨ns, _, hr'⟩ := List.mem_map.mp hr
      rw [← hr'] at hrl
      unfold listXRs at hrl
      cases hcl : cl.list gvr ns with
      | error e => rw [hcl] at hrl; exact Except.noConfusion hrl
      | ok objs =>
          rw [hcl] at hrl
          simp only [Except.map, Except.ok.injEq] at hrl
          subst hrl
          obtain ⟨o, _, ho⟩ := List.mem_map.mp hx
          subst ho
          exact ⟨rfl, rfl⟩

theorem pollClaimsScoped_err (cl : Cluster) (s : MemoryStore) (gvr : GVR) (ns : String)
    (keys : ConvertKeys) :
    (pollClaimsScoped cl s gvr ns keys).2.1 =
      !((pollClaimsScoped cl s gvr ns keys).2.2.all (listOk cl)) := by
  cases h : cl.list gvr ns <;> simp [pollClaimsScoped, h, listOk]

theorem pollXRsWithKeys_err (cl : Cluster) (s : MemoryStore) (gvr : GVR) (ns : String)
    (keys : ConvertKeys) :
    (pollXRsWithKeys cl s gvr ns keys).2.1 =
      !((pollXRsWithKeys cl s gvr ns keys).2.2.all (listOk cl)) := by
  cases h : cl.list gvr ns <;> simp [pollXRsWithKeys, h, listOk]

theorem pollClaims_err (cl : Cluster) (cfg : Config) (s : MemoryStore) (gvr : GVR) :
    (pollClaims cl cfg s gvr).2.1 = !((pollClaims cl cfg s gvr).2.2.all (listOk cl)) := by
  by_cases hns : cfg.Namespaces.isEmpty
  · cases h : cl.list gvr "" <;>
      simp [pollClaims, hns, listClaims, Except.map, h, listOk]
  · simp only [pollClaims, hns, Bool.false_eq_true, if_false]
    refine any_map_eq_bnot_all_map ?_
    intro ns _
    show exceptErr (listClaims cl cfg gvr ns) =
      !(listOk cl { gvr := gvr, ns := ns, origin := "central", isClaim := true })
    cases h : cl.list gvr ns <;> simp [listClaims, Except.map, h, exceptErr, listOk]

theorem pollXRs_err (cl : Cluster) (cfg : Config) (s : MemoryStore) (gvr : GVR) :
    (pollXRs cl cfg s gvr).2.1 = !((pollXRs cl cfg s gvr).2.2.all (listOk cl)) := by
  by_cases hns : cfg.Namespaces.isEmpty
  · cases h : cl.list gvr "" <;>
      simp [pollXRs, hns, listXRs, Except.map, h, listOk]
  · simp only [pollXRs, hns, Bool.false_eq_true, if_false]
    refine any_map_eq_bnot_all_map ?_
    intro ns _
    show exceptErr (listXRs cl cfg gvr ns) =
      !(listOk cl { gvr := gvr, ns := ns, origin := "central", isClaim := false })
    cases h : cl.list gvr ns <;> simp [listXRs, Except.map, h, exceptErr, listOk]

theorem stepAcc_err (cl : Cluster) (a : PollAcc) (r : MemoryStore × Bool × List ListOp)
    (ha : a.hadErrors = !(a.trace.all (listOk cl)))
    (hr : r.2.1 = !(r.2.2.all (listOk cl))) :
    (stepAcc a r).hadErrors = !((stepAcc a r).trace.all (listOk cl)) := by
  simp [stepAcc, ha, hr, List.all_append]

theorem pollNamespaceConfigsList_err (cl : Cluster) (cfg : Config)
    (nsConfigs : List NamespaceConfig) (cClaim cXR : List String) (s : MemoryStore) :
    (pollNamespaceConfigsList cl cfg nsConfigs cClaim cXR s).2.1 =
      !((pollNamespaceConfigsList cl cfg nsConfigs cClaim cXR s).2.2.all (listOk cl)) := by
  have h21 : (pollNamespaceConfigsList cl cfg nsConfigs cClaim cXR s).2.1 =
      (nsConfigsFold cl cfg nsConfigs cClaim cXR
        { store := s, hadErrors := false, trace := [] }).hadErrors := rfl
  have h22 : (pollNamespaceConfigsList cl cfg nsConfigs cClaim cXR s).2.2 =
      (nsConfigsFold cl cfg nsConfigs cClaim cXR
        { store := s, hadErrors := false, trace := [] }).trace := rfl
  rw [h21, h22]
  unfold nsConfigsFold
  refine foldl_preserves (fun a => a.hadErrors = !(a.trace.all (listOk cl))) _ _
    ?_ _ (by simp)
  intro a nsCfg _ ha
  refine foldl_preserves (fun a => a.hadErrors = !(a.trace.all (listOk cl))) _ _ ?_ _
    (foldl_preserves (fun a => a.hadErrors = !(a.trace.all (listOk cl))) _ _ ?_ _ ha)
  · intro a2 gvr _ ha2
    split
    · exact ha2
    · exact stepAcc_err cl a2 _ ha2 (pollClaimsScoped_err cl a2.store gvr nsCfg.Namespace _)
  · intro a2 gvr _ ha2
    split
    · exact ha2
    · exact stepAcc_err cl a2 _ ha2 (pollXRsWithKeys_err cl a2.store gvr "" _)

theorem pollCycleAcc_err (cl : Cluster) (cfg : Config) (nsConfigs : List NamespaceConfig)
    (s : MemoryStore) :
    (pollCycleAcc cl cfg nsConfigs s).hadErrors =
      !((pollCycleAcc cl cfg nsConfigs s).trace.all (listOk cl)) := by
  unfold pollCycleAcc pollCentralXRs pollCentralClaims
  refine stepAcc_err cl _ _ ?_ (pollNamespaceConfigsList_err cl cfg nsConfigs _ _ _)
  refine foldl_preserves (fun a => a.hadErrors = !(a.trace.all (listOk cl))) _ _ ?_ _
    (foldl_preserves (fun a => a.hadErrors = !(a.trace.all (listOk cl))) _ _ ?_ _ (by simp))
  · intro a gvr _ ha
    exact stepAcc_err cl a _ ha (pollClaims_err cl cfg a.store gvr)
  · intro a gvr _ ha
    exact stepAcc_err cl a _ ha (pollXRs_err cl cfg a.store gvr)

/-- C6: persistence gating.  With persistence configured, the persist step of
a cycle is invoked iff every list operation of the cycle succeeded; when a
cycle has errors persistence is skipped and the durable snapshot object is
left unchanged. -/
theorem poll_persist_gating (cl : Cluster) (cfg : Config)
    (nsConfigs : List NamespaceConfig) (putOk : Bool) (durable : Option Snapshot)
    (now : Nat) (s : MemoryStore) :
    ((poll cl cfg nsConfigs true putOk durable now s).didPersist = true ↔
      ((poll cl cfg nsConfigs true putOk durable now s).trace.all (listOk cl)) = true) ∧
    ((poll cl cfg nsConfigs true putOk durable now s).hadErrors = true ↔
      ¬(((poll cl cfg nsConfigs true putOk durable now s).trace.all (listOk cl)) = true)) ∧
    ((poll cl cfg nsConfigs true putOk durable now s).didPersist = false →
      (poll cl cfg nsConfigs true putOk durable now s).durable = durable) := by
  have herr := pollCycleAcc_err cl cfg nsConfigs s
  have htr : (poll cl cfg nsConfigs true putOk durable now s).trace =
      (pollCycleAcc cl cfg nsConfigs s).trace := rfl
  have hhe : (poll cl cfg nsConfigs true putOk durable now s).hadErrors =
      (pollCycleAcc cl cfg nsConfigs s).hadErrors := rfl
  have hdp : (poll cl cfg nsConfigs true putOk durable now s).didPersist =
      (!(pollCycleAcc cl cfg nsConfigs s).hadErrors && true) := rfl
  have hdu : (poll cl cfg nsConfigs true putOk durable now s).durable =
      (if (poll cl cfg nsConfigs true putOk durable now s).didPersist && putOk
        then some (S3Persist (poll cl cfg nsConfigs true putOk durable now s).store now)
        else durable) := rfl
  refine ⟨?_, ?_, ?_⟩
  · rw [hdp, htr, herr]
    cases ((pollCycleAcc cl cfg nsConfigs s).trace.all (listOk cl)) <;> simp
  · rw [hhe, htr, herr]
    cases ((pollCycleAcc cl cfg nsConfigs s).trace.all (listOk cl)) <;> simp
  · intro h
    rw [hdu, h]
    simp

@[simp] theorem toClaimWithKeys_GVR (obj : KObj) (gvr : GVR) (keys : ConvertKeys) :
    (UnstructuredToClaimWithKeys obj gvr keys).GVR = GVRString gvr := rfl

@[simp] theorem toClaimWithKeys_Source (obj : KObj) (gvr : GVR) (keys : ConvertKeys) :
    (UnstructuredToClaimWithKeys obj gvr keys).Source = keys.Source := rfl

@[simp] theorem toClaimWithKeys_Namespace (obj : KObj) (gvr : GVR) (keys : ConvertKeys) :
    (UnstructuredToClaimWithKeys obj gvr keys).Namespace = obj.ns := rfl

@[simp] theorem toXRWithKeys_GVR (obj : KObj) (gvr : GVR) (keys : ConvertKeys) :
    (UnstructuredToXRWithKeys obj gvr keys).GVR = GVRString gvr := rfl

@[simp] theorem toXRWithKeys_Source (obj : KObj) (gvr : GVR) (keys : ConvertKeys) :
    (UnstructuredToXRWithKeys obj gvr keys).Source = keys.Source := rfl

@[simp] theorem keysFromNamespaceConfig_Source (nsCfg : NamespaceConfig)
    (centralCfg : Option Config) :
    (KeysFromNamespaceConfig nsCfg centralCfg).Source = "namespace" := by
  cases centralCfg <;> rfl

/-- The C3 store invariant: no record tagged with origin "namespace" sits
under a centrally configured GVR (claims against the central claim GVRs,
XRs against the central XR GVRs). -/
def DedupInv (cfg : Config) (s : MemoryStore) : Prop :=
  (∀ p ∈ s.claims, p.2.GVR ∈ cfg.ClaimGVRs.map GVRString → p.2.Source = "central") ∧
  (∀ p ∈ s.xrs, p.2.GVR ∈ cfg.XRGVRs.map GVRString → p.2.Source = "central")

/-- The C3 trace property: no namespace-origin list call targets a centrally
configured GVR. -/
def TraceDedup (cfg : Config) (trace : List ListOp) : Prop :=
  ∀ op ∈ trace, op.origin = "namespace" →
    (op.isClaim = true → GVRString op.gvr ∉ cfg.ClaimGVRs.map GVRString) ∧
    (op.isClaim = false → GVRString op.gvr ∉ cfg.XRGVRs.map GVRString)

theorem traceDedup_append {cfg : Config} {t1 t2 : List ListOp}
    (h1 : TraceDedup cfg t1) (h2 : TraceDedup cfg t2) : TraceDedup cfg (t1 ++ t2) := by
  intro op hop
  rcases List.mem_append.mp hop with h | h
  · exact h1 op h
  · exact h2 op h

theorem traceDedup_central {cfg : Config} {t : List ListOp}
    (h : ∀ op ∈ t, op.origin = "central") : TraceDedup cfg t := by
  intro op hop hns
  rw [h op hop] at hns
  exact absurd hns (by decide)

theorem dedupInv_replaceClaims {cfg : Config} {s : MemoryStore} {gvr : String}
    {items : List ClaimInfo} (h : DedupInv cfg s)
    (hi : ∀ c ∈ items, c.GVR ∈ cfg.ClaimGVRs.map GVRString → c.Source = "central") :
    DedupInv cfg (s.ReplaceClaims gvr items) := by
  refine ⟨?_, h.2⟩
  intro p hp
  rcases replaceClaims_values s gvr items p hp with h' | h'
  · exact h.1 p h'
  · exact hi p.2 h'

theorem dedupInv_replaceXRs {cfg : Config} {s : MemoryStore} {gvr : String}
    {items : List XRInfo} (h : DedupInv cfg s)
    (hi : ∀ x ∈ items, x.GVR ∈ cfg.XRGVRs.map GVRString → x.Source = "central") :
    DedupInv cfg (s.ReplaceXRs gvr items) := by
  refine ⟨h.1, ?_⟩
  intro p hp
  rcases replaceXRs_values s gvr items p hp with h' | h'
  · exact h.2 p h'
  · exact hi p.2 h'

theorem dedupInv_enrich {cfg : Config} {s : MemoryStore} (h : DedupInv cfg s) :
    DedupInv cfg s.EnrichClaimCompositions := by
  refine ⟨?_, h.2⟩
  intro p hp
  obtain ⟨q, hq, rfl⟩ := List.mem_map.mp hp
  have hf := enrichOne_fields s.xrs q.2
  show (enrichOne s.xrs q.2).GVR ∈ _ → (enrichOne s.xrs q.2).Source = "central"
  rw [hf.1, hf.2.1]
  exact h.1 q hq

theorem nsConfigsFold_dedup (cl : Cluster) (cfg : Config)
    (nsConfigs : List NamespaceConfig) (a : PollAcc)
    (ha : TraceDedup cfg a.trace ∧ DedupInv cfg a.store) :
    TraceDedup cfg (nsConfigsFold cl cfg nsConfigs (cfg.ClaimGVRs.map GVRString)
        (cfg.XRGVRs.map GVRString) a).trace ∧
      DedupInv cfg (nsConfigsFold cl cfg nsConfigs (cfg.ClaimGVRs.map GVRString)
        (cfg.XRGVRs.map GVRString) a).store := by
  unfold nsConfigsFold
  refine foldl_preserves (fun a => TraceDedup cfg a.trace ∧ DedupInv cfg a.store) _ _ ?_ _ ha
  intro a nsCfg _ ha
  refine foldl_preserves (fun a => TraceDedup cfg a.trace ∧ DedupInv cfg a.store) _ _ ?_ _
    (foldl_preserves (fun a => TraceDedup cfg a.trace ∧ DedupInv cfg a.store) _ _ ?_ _ ha)
  · intro a2 gvr _ ha2
    split
    · exact ha2
    next hc =>
      have hc' : GVRString gvr ∉ List.map GVRString cfg.ClaimGVRs := by simpa using hc
      constructor
      · refine traceDedup_append ha2.1 ?_
        rw [(pollClaimsScoped_shape cl a2.store gvr nsCfg.Namespace _).1]
        intro op hop _
        simp only [List.mem_singleton] at hop
        subst hop
        exact ⟨fun _ => hc', fun hfalse => absurd hfalse (by simp)⟩
      · rcases (pollClaimsScoped_shape cl a2.store gvr nsCfg.Namespace _).2.2 with
          heq | ⟨objs, _, heq⟩
        · show DedupInv cfg (pollClaimsScoped cl a2.store gvr nsCfg.Namespace _).1
          rw [heq]
          exact ha2.2
        · show DedupInv cfg (pollClaimsScoped cl a2.store gvr nsCfg.Namespace _).1
          rw [heq]
          refine dedupInv_replaceClaims ha2.2 ?_
          intro c hcm hgm
          obtain ⟨o, _, rfl⟩ := List.mem_map.mp hcm
          rw [toClaimWithKeys_GVR] at hgm
          exact absurd hgm hc' 
  · intro a2 gvr _ ha2
    split
    · exact ha2
    next hc =>
      have hc' : GVRString gvr ∉ List.map GVRString cfg.XRGVRs := by simpa using hc
      constructor
      · refine traceDedup_append ha2.1 ?_
        rw [(pollXRsWithKeys_shape cl a2.store gvr "" _).1]
        intro op hop _
        simp only [List.mem_singleton] at hop
        subst hop
        exact ⟨fun htrue => absurd htrue (by simp), fun _ => hc'⟩
      · rcases (pollXRsWithKeys_shape cl a2.store gvr "" _).2.2 with
          heq | ⟨objs, _, heq⟩
        · show DedupInv cfg (pollXRsWithKeys cl a2.store gvr "" _).1
          rw [heq]
          exact ha2.2
        · show DedupInv cfg (pollXRsWithKeys cl a2.store gvr "" _).1
          rw [heq]
          refine dedupInv_replaceXRs ha2.2 ?_
          intro x hxm hgm
          obtain ⟨o, _, rfl⟩ := List.mem_map.mp hxm
          rw [toXRWithKeys_GVR] at hgm
          exact absurd hgm hc' 

theorem pollCycleAcc_dedup (cl : Cluster) (cfg : Config)
    (nsConfigs : List NamespaceConfig) (s : MemoryStore) (hinv : DedupInv cfg s) :
    TraceDedup cfg (pollCycleAcc cl cfg nsConfigs s).trace ∧
      DedupInv cfg (pollCycleAcc cl cfg nsConfigs s).store := by
  unfold pollCycleAcc pollCentralXRs pollCentralClaims
  have hbase : TraceDedup cfg ([] : List ListOp) ∧ DedupInv cfg s :=
    ⟨fun op hop => absurd hop (List.not_mem_nil op), hinv⟩
  have hstepx : ∀ (a : PollAcc) (gvr : GVR), gvr ∈ cfg.XRGVRs →
      (TraceDedup cfg a.trace ∧ DedupInv cfg a.store) →
      TraceDedup cfg (stepAcc a (pollXRs cl cfg a.store gvr)).trace ∧
        DedupInv cfg (stepAcc a (pollXRs cl cfg a.store gvr)).store := by
    intro a gvr _ ha
    constructor
    · refine traceDedup_append ha.1 (traceDedup_central ?_)
      intro op hop
      exact ((pollXRs_shape cl cfg a.store gvr).1 op hop).1
    · rcases (pollXRs_shape cl cfg a.store gvr).2.2 with heq | ⟨items, hitems, heq⟩
      · show DedupInv cfg (pollXRs cl cfg a.store gvr).1
        rw [heq]
        exact ha.2
      · show DedupInv cfg (pollXRs cl cfg a.store gvr).1
        rw [heq]
        exact dedupInv_replaceXRs ha.2 (fun x hx _ => (hitems x hx).1)
  have hstepc : ∀ (a : PollAcc) (gvr : GVR), gvr ∈ cfg.ClaimGVRs →
      (TraceDedup cfg a.trace ∧ DedupInv cfg a.store) →
      TraceDedup cfg (stepAcc a (pollClaims cl cfg a.store gvr)).trace ∧
        DedupInv cfg (stepAcc a (pollClaims cl cfg a.store gvr)).store := by
    intro a gvr _ ha
    constructor
    · refine traceDedup_append ha.1 (traceDedup_central ?_)
      intro op hop
      exact ((pollClaims_shape cl cfg a.store gvr).1 op hop).1
    · rcases (pollClaims_shape cl cfg a.store gvr).2.2 with heq | ⟨items, hitems, heq⟩
      · show DedupInv cfg (pollClaims cl cfg a.store gvr).1
        rw [heq]
        exact ha.2
      · show DedupInv cfg (pollClaims cl cfg a.store gvr).1
        rw [heq]
        exact dedupInv_replaceClaims ha.2 (fun c hc _ => (hitems c hc).1)
  have ha2 := foldl_preserves (fun a => TraceDedup cfg a.trace ∧ DedupInv cfg a.store)
    (fun a gvr => stepAcc a (pollClaims cl cfg a.store gvr)) cfg.ClaimGVRs hstepc _
    (foldl_preserves (fun a => TraceDedup cfg a.trace ∧ DedupInv cfg a.store)
      (fun a gvr => stepAcc a (pollXRs cl cfg a.store gvr)) cfg.XRGVRs hstepx
      { store := s, hadErrors := false, trace := [] } hbase)
  have hns := nsConfigsFold_dedup cl cfg nsConfigs
    { store := (cfg.ClaimGVRs.foldl (fun a gvr => stepAcc a (pollClaims cl cfg a.store gvr))
        (cfg.XRGVRs.foldl (fun a gvr => stepAcc a (pollXRs cl cfg a.store gvr))
          { store := s, hadErrors := false, trace := [] })).store,
      hadErrors := false, trace := [] }
    ⟨fun op hop => absurd hop (List.not_mem_nil op), ha2.2⟩
  exact ⟨traceDedup_append ha2.1 hns.1, hns.2⟩

/-- C3: central-vs-namespace de-duplication.  The invariant that every
record under a centrally configured GVR carries origin "central" holds for
the fresh store and is preserved by every completed poll cycle; moreover no
namespace-origin list call of a cycle ever targets a centrally configured
GVR (the conflicting namespace-config entry is skipped). -/
theorem poll_central_dedup (cl : Cluster) (cfg : Config)
    (nsConfigs : List NamespaceConfig) (persistConfigured putOk : Bool)
    (durable : Option Snapshot) (now : Nat) (s : MemoryStore)
    (hinv : DedupInv cfg s) :
    DedupInv cfg MemoryStore.New ∧
    TraceDedup cfg (poll cl cfg nsConfigs persistConfigured putOk durable now s).trace ∧
    DedupInv cfg (poll cl cfg nsConfigs persistConfigured putOk durable now s).store := by
  have h := pollCycleAcc_dedup cl cfg nsConfigs s hinv
  exact ⟨⟨fun p hp => absurd hp (List.not_mem_nil p),
      fun p hp => absurd hp (List.not_mem_nil p)⟩,
    h.1, dedupInv_enrich h.2⟩

def clW : Cluster := { list := fun _ _ => Except.ok [] }

def cfgW : Config :=
  { ClaimGVRs := [{ group := "g", version := "v1", resource := "widgets" }],
    XRGVRs := [{ group := "g", version := "v1", resource := "xwidgets" }],
    Namespaces := [], CreatorAnnotationKey := "", TeamAnnotationKey := "",
    CompositionLabelKey := "" }

def nsCfgP : NamespaceConfig :=
  { Namespace := "team-a", ConfigMapName := "gvrs-config",
    ClaimGVRs := [{ group := "example.org", version := "v1", resource := "widgets" }],
    XRGVRs := [],
    CreatorAnnotationKey := "company.io/creator",
    TeamAnnotationKey := "company.io/team" }

/-- Witness for C3's theorem at a concrete cluster, config, namespace config
and empty store. -/
theorem poll_central_dedup_witness :
    DedupInv cfgW MemoryStore.New ∧
    (DedupInv cfgW MemoryStore.New ∧
      TraceDedup cfgW (poll clW cfgW [nsCfgP] true true none 0 MemoryStore.New).trace ∧
      DedupInv cfgW (poll clW cfgW [nsCfgP] true true none 0 MemoryStore.New).store) :=
  have hinv : DedupInv cfgW MemoryStore.New :=
    ⟨fun p hp => absurd hp (List.not_mem_nil p), fun p hp => absurd hp (List.not_mem_nil p)⟩
  ⟨hinv, poll_central_dedup clW cfgW [nsCfgP] true true none 0 MemoryStore.New hinv⟩

/-- Witness for C6's theorem at a concrete cluster and configuration. -/
theorem poll_persist_gating_witness :
    ((poll clW cfgW [] true true none 0 MemoryStore.New).didPersist = true ↔
      ((poll clW cfgW [] true true none 0 MemoryStore.New).trace.all (listOk clW)) = true) ∧
    ((poll clW cfgW [] true true none 0 MemoryStore.New).hadErrors = true ↔
      ¬(((poll clW cfgW [] true true none 0 MemoryStore.New).trace.all (listOk clW)) = true)) ∧
    ((poll clW cfgW [] true true none 0 MemoryStore.New).didPersist = false →
      (poll clW cfgW [] true true none 0 MemoryStore.New).durable = none) :=
  poll_persist_gating clW cfgW [] true none 0 MemoryStore.New

/-- The environment assumption that a namespace-scoped list call only
returns objects of that namespace (guaranteed by the Kubernetes API). -/
def ClusterWF (cl : Cluster) : Prop :=
  ∀ (gvr : GVR) (ns : String) (objs : List KObj), ns ≠ "" →
    cl.list gvr ns = Except.ok objs → ∀ o ∈ objs, o.ns = ns

theorem snapshotClaims_replace_subset (s : MemoryStore) (gvr : String)
    (items : List ClaimInfo) :
    ∀ c ∈ (s.ReplaceClaims gvr items).SnapshotClaims, c ∈ s.SnapshotClaims ∨ c ∈ items := by
  intro c hc
  obtain ⟨p, hp, rfl⟩ := List.mem_map.mp hc
  rcases replaceClaims_values s gvr items p hp with h | h
  · exact Or.inl (List.mem_map_of_mem _ h)
  · exact Or.inr h

/-- C4: namespace scoping of per-namespace polling.  Every claim list call
issued for a namespace config is scoped to that config's owning namespace,
every XR list call is cluster-wide (empty namespace), and, given the API
guarantee ClusterWF, every claim record the per-namespace polling adds has
the owning namespace of the config that declared its GVR. -/
theorem pollNamespaceConfigs_scoping (cl : Cluster) (cfg : Config)
    (nsConfigs : List NamespaceConfig) (cClaim cXR : List String) (s : MemoryStore)
    (hcl : ClusterWF cl) (hns : ∀ nsCfg ∈ nsConfigs, nsCfg.Namespace ≠ "") :
    (∀ op ∈ (pollNamespaceConfigsList cl cfg nsConfigs cClaim cXR s).2.2,
        (op.isClaim = true →
          ∃ nsCfg ∈ nsConfigs, op.gvr ∈ nsCfg.ClaimGVRs ∧ op.ns = nsCfg.Namespace) ∧
        (op.isClaim = false → op.ns = "")) ∧
    (∀ c ∈ (pollNamespaceConfigsList cl cfg nsConfigs cClaim cXR s).1.SnapshotClaims,
        c ∉ s.SnapshotClaims →
          ∃ nsCfg ∈ nsConfigs, c.Namespace = nsCfg.Namespace ∧
            ∃ g ∈ nsCfg.ClaimGVRs, c.GVR = GVRString g) := by
  have key : ∀ a : PollAcc, True := fun _ => trivial
  have hmain :
      (∀ op ∈ (nsConfigsFold cl cfg nsConfigs cClaim cXR
          { store := s, hadErrors := false, trace := [] }).trace,
        (op.isClaim = true →
          ∃ nsCfg ∈ nsConfigs, op.gvr ∈ nsCfg.ClaimGVRs ∧ op.ns = nsCfg.Namespace) ∧
        (op.isClaim = false → op.ns = "")) ∧
      (∀ c ∈ (nsConfigsFold cl cfg nsConfigs cClaim cXR
          { store := s, hadErrors := false, trace := [] }).store.SnapshotClaims,
        c ∈ s.SnapshotClaims ∨
          ∃ nsCfg ∈ nsConfigs, c.Namespace = nsCfg.Namespace ∧
            ∃ g ∈ nsCfg.ClaimGVRs, c.GVR = GVRString g) := by
    unfold nsConfigsFold
    refine foldl_preserves (fun a =>
        (∀ op ∈ a.trace,
          (op.isClaim = true →
            ∃ nsCfg ∈ nsConfigs, op.gvr ∈ nsCfg.ClaimGVRs ∧ op.ns = nsCfg.Namespace) ∧
          (op.isClaim = false → op.ns = "")) ∧
        (∀ c ∈ a.store.SnapshotClaims,
          c ∈ s.SnapshotClaims ∨
            ∃ nsCfg ∈ nsConfigs, c.Namespace = nsCfg.Namespace ∧
              ∃ g ∈ nsCfg.ClaimGVRs, c.GVR = GVRString g)) _ _ ?_ _
      ⟨fun op hop => absurd hop (List.not_mem_nil op), fun c hc => Or.inl hc⟩
    intro a nsCfg hnsCfg ha
    refine foldl_preserves (fun a =>
        (∀ op ∈ a.trace,
          (op.isClaim = true →
            ∃ nsCfg ∈ nsConfigs, op.gvr ∈ nsCfg.ClaimGVRs ∧ op.ns = nsCfg.Namespace) ∧
          (op.isClaim = false → op.ns = "")) ∧
        (∀ c ∈ a.store.SnapshotClaims,
          c ∈ s.SnapshotClaims ∨
            ∃ nsCfg ∈ nsConfigs, c.Namespace = nsCfg.Namespace ∧
              ∃ g ∈ nsCfg.ClaimGVRs, c.GVR = GVRString g)) _ _ ?_ _
      (foldl_preserves (fun a =>
        (∀ op ∈ a.trace,
          (op.isClaim = true →
            ∃ nsCfg ∈ nsConfigs, op.gvr ∈ nsCfg.ClaimGVRs ∧ op.ns = nsCfg.Namespace) ∧
          (op.isClaim = false → op.ns = "")) ∧
        (∀ c ∈ a.store.SnapshotClaims,
          c ∈ s.SnapshotClaims ∨
            ∃ nsCfg ∈ nsConfigs, c.Namespace = nsCfg.Namespace ∧
              ∃ g ∈ nsCfg.ClaimGVRs, c.GVR = GVRString g)) _ _ ?_ _ ha)
    · intro a2 gvr hgvr ha2
      split
      · exact ha2
      next hc =>
        constructor
        · intro op hop
          rcases List.mem_append.mp (by
              have : (stepAcc a2 (pollClaimsScoped cl a2.store gvr nsCfg.Namespace
                  (KeysFromNamespaceConfig nsCfg (some cfg)))).trace =
                a2.trace ++ (pollClaimsScoped cl a2.store gvr nsCfg.Namespace
                  (KeysFromNamespaceConfig nsCfg (some cfg))).2.2 := rfl
              rw [this] at hop
              exact hop) with h | h
          · exact ha2.1 op h
          · rw [(pollClaimsScoped_shape cl a2.store gvr nsCfg.Namespace _).1] at h
            simp only [List.mem_singleton] at h
            subst h
            exact ⟨fun _ => ⟨nsCfg, hnsCfg, hgvr, rfl⟩,
              fun hfalse => absurd hfalse (by simp)⟩
        · intro c hcm
          rcases (pollClaimsScoped_shape cl a2.store gvr nsCfg.Namespace _).2.2 with
            heq | ⟨objs, hok, heq⟩
          · rw [show (stepAcc a2 (pollClaimsScoped cl a2.store gvr nsCfg.Namespace
                (KeysFromNamespaceConfig nsCfg (some cfg)))).store =
                (pollClaimsScoped cl a2.store gvr nsCfg.Namespace
                  (KeysFromNamespaceConfig nsCfg (some cfg))).1 from rfl, heq] at hcm
            exact ha2.2 c hcm
          · rw [show (stepAcc a2 (pollClaimsScoped cl a2.store gvr nsCfg.Namespace
                (KeysFromNamespaceConfig nsCfg (some cfg)))).store =
                (pollClaimsScoped cl a2.store gvr nsCfg.Namespace
                  (KeysFromNamespaceConfig nsCfg (some cfg))).1 from rfl, heq] at hcm
            rcases snapshotClaims_replace_subset _ _ _ c hcm with h | h
            · exact ha2.2 c h
            · obtain ⟨o, ho, rfl⟩ := List.mem_map.mp h
              refine Or.inr ⟨nsCfg, hnsCfg, ?_, gvr, hgvr, rfl⟩
              rw [toClaimWithKeys_Namespace]
              exact hcl gvr nsCfg.Namespace objs (hns nsCfg hnsCfg) hok o ho
    · intro a2 gvr hgvr ha2
      split
      · exact ha2
      next hc =>
        constructor
        · intro op hop
          rcases List.mem_append.mp (by
              have : (stepAcc a2 (pollXRsWithKeys cl a2.store gvr ""
                  (KeysFromNamespaceConfig nsCfg (some cfg)))).trace =
                a2.trace ++ (pollXRsWithKeys cl a2.store gvr ""
                  (KeysFromNamespaceConfig nsCfg (some cfg))).2.2 := rfl
              rw [this] at hop
              exact hop) with h | h
          · exact ha2.1 op h
          · rw [(pollXRsWithKeys_shape cl a2.store gvr "" _).1] at h
            simp only [List.mem_singleton] at h
            subst h
            exact ⟨fun htrue => absurd htrue (by simp), fun _ => rfl⟩
        · intro c hcm
          have hclaims : (pollXRsWithKeys cl a2.store gvr ""
              (KeysFromNamespaceConfig nsCfg (some cfg))).1.claims = a2.store.claims :=
            (pollXRsWithKeys_shape cl a2.store gvr "" _).2.1
          have : (stepAcc a2 (pollXRsWithKeys cl a2.store gvr ""
              (KeysFromNamespaceConfig nsCfg (some cfg)))).store.SnapshotClaims =
              a2.store.SnapshotClaims := by
            show ((pollXRsWithKeys cl a2.store gvr ""
              (KeysFromNamespaceConfig nsCfg (some cfg))).1.claims.map Prod.snd) = _
            rw [hclaims]
            rfl
          rw [this] at hcm
          exact ha2.2 c hcm
  refine ⟨hmain.1, ?_⟩
  intro c hc hnot
  rcases hmain.2 c hc with h | h
  · exact absurd h hnot
  · exact h

/-- Witness for C4's theorem at a concrete well-formed cluster and one
namespace config. -/
theorem pollNamespaceConfigs_scoping_witness :
    ClusterWF clW ∧
    (∀ nsCfg ∈ [nsCfgP], nsCfg.Namespace ≠ "") ∧
    ((∀ op ∈ (pollNamespaceConfigsList clW cfgW [nsCfgP] [] [] MemoryStore.New).2.2,
        (op.isClaim = true →
          ∃ nsCfg ∈ [nsCfgP], op.gvr ∈ nsCfg.ClaimGVRs ∧ op.ns = nsCfg.Namespace) ∧
        (op.isClaim = false → op.ns = "")) ∧
      (∀ c ∈ (pollNamespaceConfigsList clW cfgW [nsCfgP] [] []
            MemoryStore.New).1.SnapshotClaims,
        c ∉ MemoryStore.New.SnapshotClaims →
          ∃ nsCfg ∈ [nsCfgP], c.Namespace = nsCfg.Namespace ∧
            ∃ g ∈ nsCfg.ClaimGVRs, c.GVR = GVRString g)) :=
  by
  have hcl : ClusterWF clW := by
    intro gvr ns objs hne heq o ho
    simp only [clW] at heq
    injection heq with h
    subst h
    exact absurd ho (List.not_mem_nil o)
  have hns : ∀ nsCfg ∈ [nsCfgP], nsCfg.Namespace ≠ "" := by
    intro nsCfg h
    rw [List.mem_singleton] at h
    subst h
    simp [nsCfgP]
  exact ⟨hcl, hns,
    pollNamespaceConfigs_scoping clW cfgW [nsCfgP] [] [] MemoryStore.New hcl hns⟩

theorem insertEntry_fresh {m : List (String × α)} {k : String} (v : α)
    (hk : k ∉ m.map Prod.fst) : insertEntry m k v = m ++ [(k, v)] := by
  induction m with
  | nil => rfl
  | cons p rest ih =>
      obtain ⟨k0, v0⟩ := p
      have hne : k0 ≠ k := fun he => hk (by simp [he])
      simp only [insertEntry, if_neg hne, List.cons_append]
      rw [ih (fun hm => hk (by simp [hm]))]

theorem upsertAll_fresh (key : α → String) {m : List (String × α)} {items : List α}
    (hnd : (items.map key).Nodup) (hfresh : ∀ v ∈ items, key v ∉ m.map Prod.fst) :
    upsertAll key m items = m ++ items.map (fun v => (key v, v)) := by
  induction items generalizing m with
  | nil => simp
  | cons v rest ih =>
      have hnd' : (rest.map key).Nodup := by
        simp only [List.map_cons, List.nodup_cons] at hnd
        exact hnd.2
      have hvrest : key v ∉ rest.map key := by
        simp only [List.map_cons, List.nodup_cons] at hnd
        exact hnd.1
      rw [upsertAll_cons, insertEntry_fresh v (hfresh v (by simp))]
      rw [ih hnd' ?_]
      · simp [List.append_assoc]
      · intro w hw
        simp only [List.map_append, List.mem_append, List.map_cons, List.map_nil,
          List.mem_singleton, not_or]
        constructor
        · exact hfresh w (by simp [hw])
        · intro he
          exact hvrest (he ▸ List.mem_map_of_mem key hw)

theorem replacePart_fresh (key tag : α → String) {m : List (String × α)} {g : String}
    {items : List α} (hm : ∀ p ∈ m, tag p.2 ≠ g) (hi : ∀ v ∈ items, tag v = g)
    (hnd : (items.map key).Nodup) (hfresh : ∀ v ∈ items, key v ∉ m.map Prod.fst) :
    replacePart key tag m g items = m ++ items.map (fun v => (key v, v)) := by
  unfold replacePart
  rw [upsertAll_fresh key hnd hfresh]
  refine List.filter_eq_self.mpr ?_
  intro p hp
  rcases List.mem_append.mp hp with h | h
  · have := hm p h
    simp [this]
  · obtain ⟨v, hv, rfl⟩ := List.mem_map.mp h
    have : keysOf key items = items.map key := rfl
    simp [this]
    exact Or.inr ⟨v, hv, rfl⟩

theorem join_filter_perm {α : Type u} (tag : α → String) :
    ∀ (gs : List String) (cs : List α), gs.Nodup → (∀ v ∈ cs, tag v ∈ gs) →
      (List.flatten (gs.map (fun g => cs.filter (fun v => tag v == g)))).Perm cs
  | [], cs, _, hcov => by
      cases cs with
      | nil => simp
      | cons v rest => exact absurd (hcov v (by simp)) (List.not_mem_nil _)
  | g :: gs', cs, hnd, hcov => by
      have hnd' : gs'.Nodup := (List.nodup_cons.mp hnd).2
      have hgn : g ∉ gs' := (List.nodup_cons.mp hnd).1
      have hbuckets : gs'.map (fun g' => cs.filter (fun v => tag v == g')) =
          gs'.map (fun g' =>
            (cs.filter (fun v => !(tag v == g))).filter (fun v => tag v == g')) := by
        refine List.map_congr_left ?_
        intro g' hg'
        have hne : g' ≠ g := fun he => hgn (he ▸ hg')
        rw [List.filter_filter]
        refine List.filter_congr ?_
        intro v _
        cases hv : (tag v == g') with
        | true =>
            have hvg : tag v = g' := by simpa using hv
            have hng : (tag v == g) = false := by
              simp only [beq_eq_false_iff_ne, ne_eq, hvg]
              exact hne
            simp [hng]
        | false => simp
      rw [List.map_cons, List.flatten_cons, hbuckets]
      have ihp := join_filter_perm tag gs' (cs.filter (fun v => !(tag v == g))) hnd' ?_
      · refine ((ihp.append_left (cs.filter (fun v => tag v == g))).trans ?_)
        exact List.filter_append_perm _ cs
      · intro v hv
        have hmem : v ∈ cs := List.mem_of_mem_filter hv
        have hne : (tag v == g) = false := by
          have := List.of_mem_filter hv
          simpa using this
        rcases List.mem_cons.mp (hcov v hmem) with h | h
        · exfalso
          rw [h] at hne
          simp at hne
        · exact h

theorem replay_fold (key tag : α → String) :
    ∀ (gs : List String) (cs : List α) (m : List (String × α)),
      gs.Nodup → (cs.map key).Nodup →
      (∀ p ∈ m, tag p.2 ∉ gs) →
      (∀ p ∈ m, ∀ v ∈ cs, tag v ∈ gs → key v ≠ p.1) →
      gs.foldl (fun acc g => replacePart key tag acc g (cs.filter (fun v => tag v == g))) m =
        m ++ List.flatten (gs.map (fun g =>
          (cs.filter (fun v => tag v == g)).map (fun v => (key v, v))))
  | [], cs, m, _, _, _, _ => by simp
  | g :: gs', cs, m, hnd, hcs, hm, hdisj => by
      have hnd' : gs'.Nodup := (List.nodup_cons.mp hnd).2
      have hgn : g ∉ gs' := (List.nodup_cons.mp hnd).1
      rw [List.foldl_cons]
      have hb1 : replacePart key tag m g (cs.filter (fun v => tag v == g)) =
          m ++ (cs.filter (fun v => tag v == g)).map (fun v => (key v, v)) := by
        refine replacePart_fresh key tag ?_ ?_ ?_ ?_
        · intro p hp he
          exact hm p hp (by simp [he])
        · intro v hv
          simpa using List.of_mem_filter hv
        · exact ((List.filter_sublist cs).map key).nodup hcs
        · intro v hv hmem
          obtain ⟨p, hp, hpe⟩ := List.mem_map.mp hmem
          refine hdisj p hp v (List.mem_of_mem_filter hv) ?_ hpe.symm
          have : tag v = g := by simpa using List.of_mem_filter hv
          simp [this]
      rw [hb1]
      rw [replay_fold key tag gs' cs
        (m ++ (cs.filter (fun v => tag v == g)).map (fun v => (key v, v))) hnd' hcs ?_ ?_]
      · rw [List.map_cons, List.flatten_cons, List.append_assoc]
      · intro p hp
        rcases List.mem_append.mp hp with h | h
        · exact fun hin => hm p h (by simp [hin])
        · obtain ⟨v, hv, rfl⟩ := List.mem_map.mp h
          have hvg : tag v = g := by simpa using List.of_mem_filter hv
          show tag v ∉ gs'
          rw [hvg]
          exact hgn
      · intro p hp v hv hvin
        rcases List.mem_append.mp hp with h | h
        · exact hdisj p h v hv (by simp [hvin])
        · obtain ⟨w, hw, rfl⟩ := List.mem_map.mp h
          intro he
          have hww : w ∈ cs := List.mem_of_mem_filter hw
          have hvw : v = w := List.inj_on_of_nodup_map hcs hv hww he
          subst hvw
          have : tag v = g := by simpa using List.of_mem_filter hw
          rw [this] at hvin
          exact hgn hvin

theorem flatten_map_map {β : Type v} (f : α → β) (bf : String → List α)
    (gs : List String) :
    List.flatten (gs.map (fun g => (bf g).map f)) =
      (List.flatten (gs.map bf)).map f := by
  induction gs with
  | nil => rfl
  | cons g rest ih => simp [List.map_cons, List.flatten_cons, List.map_append, ih]

theorem replay_list_perm (key tag : α → String) (m : List (String × α))
    (hwf : MapWF key m) :
    ((gvrsOf tag (m.map Prod.snd)).foldl
        (fun acc g => replacePart key tag acc g
          ((m.map Prod.snd).filter (fun v => tag v == g))) []).Perm m := by
  simp only [gvrsOf]
  have hkeys : ((m.map Prod.snd).map key).Nodup := by
    rw [List.map_map]
    have heq : m.map (key ∘ Prod.snd) = m.map Prod.fst :=
      List.map_congr_left (fun p hp => (hwf.2 p hp).symm)
    rw [heq]
    exact hwf.1
  rw [replay_fold key tag (((m.map Prod.snd).map tag).dedup) (m.map Prod.snd) []
    (List.nodup_dedup _) hkeys (by simp) (by simp)]
  rw [List.nil_append]
  have hjoin : (List.flatten ((((m.map Prod.snd).map tag).dedup).map
      (fun g => (m.map Prod.snd).filter (fun v => tag v == g)))).Perm (m.map Prod.snd) :=
    join_filter_perm tag (((m.map Prod.snd).map tag).dedup) (m.map Prod.snd)
      (List.nodup_dedup _)
      (fun v hv => List.mem_dedup.mpr (List.mem_map_of_mem tag hv))
  have hmapjoin : List.flatten ((((m.map Prod.snd).map tag).dedup).map
      (fun g => ((m.map Prod.snd).filter (fun v => tag v == g)).map (fun v => (key v, v)))) =
      (List.flatten ((((m.map Prod.snd).map tag).dedup).map
        (fun g => (m.map Prod.snd).filter (fun v => tag v == g)))).map
        (fun v => (key v, v)) :=
    flatten_map_map (fun v => (key v, v))
      (fun g => (m.map Prod.snd).filter (fun v => tag v == g))
      (((m.map Prod.snd).map tag).dedup)
  rw [hmapjoin]
  refine (hjoin.map (fun v => (key v, v))).trans ?_
  have hid : (m.map Prod.snd).map (fun v => (key v, v)) = m := by
    rw [List.map_map]
    have heq : m.map ((fun v => (key v, v)) ∘ Prod.snd) = m.map id := by
      refine List.map_congr_left ?_
      intro p hp
      show (key p.2, p.2) = p
      rw [← hwf.2 p hp]
    rw [heq, List.map_id]
  rw [hid]

theorem foldl_replaceClaims_store (gs : List String) (f : String → List ClaimInfo) :
    ∀ (s : MemoryStore),
      gs.foldl (fun acc g => acc.ReplaceClaims g (f g)) s =
        { claims := gs.foldl
            (fun m g => replacePart claimKey ClaimInfo.GVR m g (f g)) s.claims,
          xrs := s.xrs } := by
  intro s
  induction gs generalizing s with
  | nil => rfl
  | cons g rest ih =>
      rw [List.foldl_cons, List.foldl_cons, ih]
      rfl

theorem foldl_replaceXRs_store (gs : List String) (f : String → List XRInfo) :
    ∀ (s : MemoryStore),
      gs.foldl (fun acc g => acc.ReplaceXRs g (f g)) s =
        { claims := s.claims,
          xrs := gs.foldl
            (fun m g => replacePart xrKey XRInfo.GVR m g (f g)) s.xrs } := by
  intro s
  induction gs generalizing s with
  | nil => rfl
  | cons g rest ih =>
      rw [List.foldl_cons, List.foldl_cons, ih]
      rfl

theorem replaySnapshot_parts (mem : MemoryStore) (snap : Snapshot) :
    (replaySnapshot mem snap).claims =
      (gvrsOf ClaimInfo.GVR snap.Claims).foldl
        (fun m g => replacePart claimKey ClaimInfo.GVR m g
          (snap.Claims.filter (fun c => c.GVR == g))) mem.claims ∧
    (replaySnapshot mem snap).xrs =
      (gvrsOf XRInfo.GVR snap.XRs).foldl
        (fun m g => replacePart xrKey XRInfo.GVR m g
          (snap.XRs.filter (fun x => x.GVR == g))) mem.xrs := by
  simp only [replaySnapshot]
  rw [foldl_replaceClaims_store, foldl_replaceXRs_store]
  exact ⟨rfl, rfl⟩

/-- C5: Persist() followed by Restore() on a fresh empty store succeeds and
reproduces the persisted store exactly: the restored claim and XR maps are
permutations of the originals (records keyed identically, each record kept
under its own recorded GVR, so later per-GVR stale eviction behaves the
same), hence the restored snapshots equal the persisted ones as multisets,
with the persisted timestamp ignored. -/
theorem persist_restore_roundtrip (s : MemoryStore) (t sz : Nat)
    (hc : MapWF claimKey s.claims) (hx : MapWF xrKey s.xrs)
    (hsz : sz ≤ maxSnapshotSize) :
    (S3Restore MemoryStore.New (S3GetOutcome.body sz (some (S3Persist s t)))).2 = none ∧
    ((S3Restore MemoryStore.New
        (S3GetOutcome.body sz (some (S3Persist s t)))).1.claims).Perm s.claims ∧
    ((S3Restore MemoryStore.New
        (S3GetOutcome.body sz (some (S3Persist s t)))).1.xrs).Perm s.xrs ∧
    ((S3Restore MemoryStore.New
        (S3GetOutcome.body sz (some (S3Persist s t)))).1.SnapshotClaims).Perm
      s.SnapshotClaims ∧
    ((S3Restore MemoryStore.New
        (S3GetOutcome.body sz (some (S3Persist s t)))).1.SnapshotXRs).Perm
      s.SnapshotXRs := by
  have hres : S3Restore MemoryStore.New (S3GetOutcome.body sz (some (S3Persist s t))) =
      (replaySnapshot MemoryStore.New (S3Persist s t), none) := by
    simp only [S3Restore]
    rw [if_neg (Nat.not_lt.mpr hsz)]
  rw [hres]
  have heq := replaySnapshot_parts MemoryStore.New (S3Persist s t)
  have hpc : (replaySnapshot MemoryStore.New (S3Persist s t)).claims.Perm s.claims := by
    rw [heq.1]
    exact replay_list_perm claimKey ClaimInfo.GVR s.claims hc
  have hpx : (replaySnapshot MemoryStore.New (S3Persist s t)).xrs.Perm s.xrs := by
    rw [heq.2]
    exact replay_list_perm xrKey XRInfo.GVR s.xrs hx
  exact ⟨rfl, hpc, hpx, hpc.map Prod.snd, hpx.map Prod.snd⟩

def rtStore : MemoryStore :=
  { claims := [(claimKey wClaim, wClaim)], xrs := [(xrKey wXR, wXR)] }

/-- Witness for C5's theorem at a concrete one-claim, one-XR store. -/
theorem persist_restore_roundtrip_witness :
    MapWF claimKey rtStore.claims ∧ MapWF xrKey rtStore.xrs ∧ 0 ≤ maxSnapshotSize ∧
    ((S3Restore MemoryStore.New (S3GetOutcome.body 0 (some (S3Persist rtStore 7)))).2 = none ∧
      ((S3Restore MemoryStore.New
          (S3GetOutcome.body 0 (some (S3Persist rtStore 7)))).1.claims).Perm rtStore.claims ∧
      ((S3Restore MemoryStore.New
          (S3GetOutcome.body 0 (some (S3Persist rtStore 7)))).1.xrs).Perm rtStore.xrs ∧
      ((S3Restore MemoryStore.New
          (S3GetOutcome.body 0 (some (S3Persist rtStore 7)))).1.SnapshotClaims).Perm
        rtStore.SnapshotClaims ∧
      ((S3Restore MemoryStore.New
          (S3GetOutcome.body 0 (some (S3Persist rtStore 7)))).1.SnapshotXRs).Perm
        rtStore.SnapshotXRs) :=
  have hc : MapWF claimKey rtStore.claims := by
    refine ⟨by decide, ?_⟩
    intro p hp
    have hpe : p = (claimKey wClaim, wClaim) := by simpa [rtStore] using hp
    subst hpe
    rfl
  have hx : MapWF xrKey rtStore.xrs := by
    refine ⟨by decide, ?_⟩
    intro p hp
    have hpe : p = (xrKey wXR, wXR) := by simpa [rtStore] using hp
    subst hpe
    rfl
  ⟨hc, hx, Nat.zero_le _,
    persist_restore_roundtrip rtStore 7 0 hc hx (Nat.zero_le _)⟩


/-- C7: restore error handling.  NoSuchKey is success and leaves the store
as it was (empty at startup); an oversize payload is an error that does not
populate the store; GetObject failures, body read failures and decode
failures are all surfaced, also without touching the store. -/
theorem s3restore_error_handling :
    (∀ mem : MemoryStore, S3Restore mem S3GetOutcome.noSuchKey = (mem, none)) ∧
    (S3Restore MemoryStore.New S3GetOutcome.noSuchKey = (MemoryStore.New, none)) ∧
    (∀ (mem : MemoryStore) (size : Nat) (decoded : Option Snapshot),
        size > maxSnapshotSize →
        S3Restore mem (S3GetOutcome.body size decoded) = (mem, some RestoreError.tooLarge)) ∧
    (∀ (mem : MemoryStore) (e : String),
        S3Restore mem (S3GetOutcome.getError e) = (mem, some (RestoreError.getFailed e))) ∧
    (∀ (mem : MemoryStore) (e : String),
        S3Restore mem (S3GetOutcome.readError e) = (mem, some (RestoreError.readFailed e))) ∧
    (∀ (mem : MemoryStore) (size : Nat), size ≤ maxSnapshotSize →
        S3Restore mem (S3GetOutcome.body size none) = (mem, some RestoreError.decodeFailed)) := by
  refine ⟨fun _ => rfl, rfl, ?_, fun _ _ => rfl, fun _ _ => rfl, ?_⟩
  · intro mem size decoded h
    simp only [S3Restore, if_pos h]
  · intro mem size h
    simp only [S3Restore, if_neg (Nat.not_lt.mpr h)]

/-- Witness for C7's oversize and decode-failure implications at concrete
sizes. -/
theorem s3restore_error_handling_witness :
    (maxSnapshotSize + 1 > maxSnapshotSize ∧
      S3Restore MemoryStore.New (S3GetOutcome.body (maxSnapshotSize + 1) none) =
        (MemoryStore.New, some RestoreError.tooLarge)) ∧
    (0 ≤ maxSnapshotSize ∧
      S3Restore MemoryStore.New (S3GetOutcome.body 0 none) =
        (MemoryStore.New, some RestoreError.decodeFailed)) :=
  ⟨⟨Nat.lt_succ_self _,
      s3restore_error_handling.2.2.1 MemoryStore.New _ none (Nat.lt_succ_self _)⟩,
    ⟨Nat.zero_le _,
      s3restore_error_handling.2.2.2.2.2 MemoryStore.New 0 (Nat.zero_le _)⟩⟩

theorem lookupEntry_eraseKey_self (m : List (String × α)) (k : String) :
    lookupEntry (eraseKey m k) k = none := by
  rw [lookupEntry_eq_none]
  intro hmem
  obtain ⟨p, hp, hpk⟩ := List.mem_map.mp hmem
  have h1 := List.of_mem_filter hp
  rw [hpk] at h1
  simp at h1

theorem lookupEntry_eraseKey_ne (m : List (String × α)) {k k' : String} (h : k' ≠ k) :
    lookupEntry (eraseKey m k) k' = lookupEntry m k' := by
  induction m with
  | nil => rfl
  | cons p rest ih =>
      obtain ⟨k0, v0⟩ := p
      by_cases hk : k0 = k
      · subst hk
        have hne : k0 ≠ k' := fun he => h (he.symm)
        simp [eraseKey, List.filter_cons, lookupEntry, hne] at *
        exact ih
      · simp [eraseKey, List.filter_cons, lookupEntry, hk] at *
        by_cases hq : k0 = k'
        · simp [hq]
        · simp [hq]
          exact ih

/-- Shape of a successful ParseNamespaceConfigMap: both GVR fields parsed,
not both empty, and the result record with the fallback-resolved annotation
keys. -/
theorem parseNamespaceConfigMap_ok {cm : ConfigMap} {fallback : Option Config}
    {nsCfg : NamespaceConfig}
    (hok : ParseNamespaceConfigMap (some cm) fallback = Except.ok nsCfg) :
    ∃ claimGVRs xrGVRs,
      parseGVRField cm "CLAIM_GVRS" = Except.ok claimGVRs ∧
      parseGVRField cm "XR_GVRS" = Except.ok xrGVRs ∧
      ¬(claimGVRs.isEmpty ∧ xrGVRs.isEmpty) ∧
      nsCfg.Namespace = cm.ns ∧
      nsCfg.ConfigMapName = cm.name ∧
      nsCfg.ClaimGVRs = claimGVRs ∧
      nsCfg.XRGVRs = xrGVRs ∧
      (lookupStr cm.data "CREATOR_ANNOTATION_KEY" = "" → ∀ fb, fallback = some fb →
          nsCfg.CreatorAnnotationKey = fb.CreatorAnnotationKey) ∧
      (lookupStr cm.data "CREATOR_ANNOTATION_KEY" ≠ "" →
          nsCfg.CreatorAnnotationKey = lookupStr cm.data "CREATOR_ANNOTATION_KEY") ∧
      (lookupStr cm.data "TEAM_ANNOTATION_KEY" = "" → ∀ fb, fallback = some fb →
          nsCfg.TeamAnnotationKey = fb.TeamAnnotationKey) ∧
      (lookupStr cm.data "TEAM_ANNOTATION_KEY" ≠ "" →
          nsCfg.TeamAnnotationKey = lookupStr cm.data "TEAM_ANNOTATION_KEY") := by
  simp only [ParseNamespaceConfigMap] at hok
  cases hcl : parseGVRField cm "CLAIM_GVRS" with
  | error e =>
      simp only [hcl] at hok
      exact Except.noConfusion hok
  | ok claimGVRs =>
      simp only [hcl] at hok
      cases hxr : parseGVRField cm "XR_GVRS" with
      | error e =>
          simp only [hxr] at hok
          exact Except.noConfusion hok
      | ok xrGVRs =>
          simp only [hxr] at hok
          by_cases hemp : claimGVRs.isEmpty ∧ xrGVRs.isEmpty
          · rw [if_pos hemp] at hok
            exact Except.noConfusion hok
          · rw [if_neg hemp] at hok
            simp only [Except.ok.injEq] at hok
            subst hok
            refine ⟨claimGVRs, xrGVRs, rfl, rfl, hemp, rfl, rfl, rfl, rfl, ?_, ?_, ?_, ?_⟩
            · intro h fb hfb
              subst hfb
              simp [h]
            · intro h
              simp [h]
            · intro h fb hfb
              subst hfb
              simp [h]
            · intro h
              simp [h]

/-- C8: registry transitions of the ConfigMapWatcher.  A valid parse (which
implies at least one claim or XR GVR) replaces the entry under the object's
key; a parse failure removes the entry; a delete removes unconditionally;
all other keys are untouched in every case. -/
theorem watcher_registry_spec (fallback : Option Config)
    (configs : List (String × NamespaceConfig)) (cm : ConfigMap) :
    (∀ nsCfg, ParseNamespaceConfigMap (some cm) fallback = Except.ok nsCfg →
        lookupEntry (watcherUpsert fallback configs cm) (cmKey cm) = some nsCfg ∧
        (nsCfg.ClaimGVRs ≠ [] ∨ nsCfg.XRGVRs ≠ [])) ∧
    (∀ e, ParseNamespaceConfigMap (some cm) fallback = Except.error e →
        lookupEntry (watcherUpsert fallback configs cm) (cmKey cm) = none) ∧
    (∀ k, k ≠ cmKey cm →
        lookupEntry (watcherUpsert fallback configs cm) k = lookupEntry configs k) ∧
    (lookupEntry (watcherDelete configs cm) (cmKey cm) = none) ∧
    (∀ k, k ≠ cmKey cm →
        lookupEntry (watcherDelete configs cm) k = lookupEntry configs k) := by
  refine ⟨?_, ?_, ?_, ?_, ?_⟩
  · intro nsCfg hok
    refine ⟨?_, ?_⟩
    · rw [watcherUpsert, hok]
      exact lookupEntry_insertEntry_self _ _ _
    · obtain ⟨claimGVRs, xrGVRs, _, _, hemp, _, _, hclEq, hxrEq, _, _, _, _⟩ :=
        parseNamespaceConfigMap_ok hok
      by_cases hc : claimGVRs.isEmpty
      · right
        rw [hxrEq]
        have hx : ¬(xrGVRs.isEmpty = true) := fun hx => hemp ⟨hc, hx⟩
        simpa [List.isEmpty_iff] using hx
      · left
        rw [hclEq]
        simpa [List.isEmpty_iff] using hc
  · intro e herr
    rw [watcherUpsert, herr]
    exact lookupEntry_eraseKey_self _ _
  · intro k hk
    rw [watcherUpsert]
    cases h : ParseNamespaceConfigMap (some cm) fallback with
    | error e => exact lookupEntry_eraseKey_ne _ hk
    | ok nsCfg => exact lookupEntry_insertEntry_ne _ _ hk
  · exact lookupEntry_eraseKey_self _ _
  · intro k hk
    exact lookupEntry_eraseKey_ne _ hk

def cmW : ConfigMap :=
  { ns := "team-a", name := "gvrs-config",
    data := [("CLAIM_GVRS", "example.org/v1/widgets")], labels := [] }

def cmBad : ConfigMap :=
  { ns := "team-a", name := "gvrs-config", data := [("CLAIM_GVRS", "oops")], labels := [] }

def nsCfgW : NamespaceConfig :=
  { Namespace := "team-a", ConfigMapName := "gvrs-config",
    ClaimGVRs := [{ group := "example.org", version := "v1", resource := "widgets" }],
    XRGVRs := [], CreatorAnnotationKey := "", TeamAnnotationKey := "" }

/-- Witness for C8's theorem: a valid ConfigMap is stored under its key; an
invalid one removes the previously stored entry; a delete removes the entry;
other keys are untouched. -/
theorem watcher_registry_spec_witness :
    (ParseNamespaceConfigMap (some cmW) none = Except.ok nsCfgW) ∧
    (lookupEntry (watcherUpsert none [] cmW) (cmKey cmW) = some nsCfgW ∧
      (nsCfgW.ClaimGVRs ≠ [] ∨ nsCfgW.XRGVRs ≠ [])) ∧
    (ParseNamespaceConfigMap (some cmBad) none = Except.error "invalid GVR oops") ∧
    (lookupEntry (watcherUpsert none (watcherUpsert none [] cmW) cmBad)
      (cmKey cmBad) = none) ∧
    (lookupEntry (watcherDelete (watcherUpsert none [] cmW) cmW) (cmKey cmW) = none) ∧
    (("other/key" : String) ≠ cmKey cmW) ∧
    (lookupEntry (watcherUpsert none [] cmW) "other/key" = lookupEntry [] "other/key") :=
  have hok : ParseNamespaceConfigMap (some cmW) none = Except.ok nsCfgW := by decide
  have herr : ParseNamespaceConfigMap (some cmBad) none =
      Except.error "invalid GVR oops" := by decide
  have hne : ("other/key" : String) ≠ cmKey cmW := by decide
  ⟨hok, (watcher_registry_spec none [] cmW).1 nsCfgW hok,
    herr,
    (watcher_registry_spec none (watcherUpsert none [] cmW) cmBad).2.1 _ herr,
    (watcher_registry_spec none (watcherUpsert none [] cmW) cmW).2.2.2.1,
    hne,
    (watcher_registry_spec none [] cmW).2.2.1 "other/key" hne⟩

/-- C9: annotation-key inheritance.  When the ConfigMap omits (or leaves
empty) the creator or team annotation key, the parsed config inherits the
central key, and conversion under the namespace config's keys then reads
the same annotation as conversion under the central keys; the composition
label key used under a namespace config is always the central one, with no
per-namespace override, and the keys carry origin "namespace". -/
theorem namespaceConfig_key_inheritance (cm : ConfigMap) (central : Config)
    (nsCfg : NamespaceConfig)
    (hok : ParseNamespaceConfigMap (some cm) (some central) = Except.ok nsCfg) :
    (lookupStr cm.data "CREATOR_ANNOTATION_KEY" = "" →
        nsCfg.CreatorAnnotationKey = central.CreatorAnnotationKey) ∧
    (lookupStr cm.data "TEAM_ANNOTATION_KEY" = "" →
        nsCfg.TeamAnnotationKey = central.TeamAnnotationKey) ∧
    (lookupStr cm.data "CREATOR_ANNOTATION_KEY" = "" → ∀ (obj : KObj) (gvr : GVR),
        (UnstructuredToClaimWithKeys obj gvr
            (KeysFromNamespaceConfig nsCfg (some central))).Creator =
          (UnstructuredToClaimWithKeys obj gvr (KeysFromConfig central)).Creator) ∧
    (lookupStr cm.data "TEAM_ANNOTATION_KEY" = "" → ∀ (obj : KObj) (gvr : GVR),
        (UnstructuredToClaimWithKeys obj gvr
            (KeysFromNamespaceConfig nsCfg (some central))).Team =
          (UnstructuredToClaimWithKeys obj gvr (KeysFromConfig central)).Team) ∧
    (∀ anyCfg : NamespaceConfig,
        (KeysFromNamespaceConfig anyCfg (some central)).CompositionLabelKey =
          central.CompositionLabelKey) ∧
    (∀ (anyCfg : NamespaceConfig) (obj : KObj) (gvr : GVR),
        (UnstructuredToXRWithKeys obj gvr
            (KeysFromNamespaceConfig anyCfg (some central))).Composition =
          (UnstructuredToXRWithKeys obj gvr (KeysFromConfig central)).Composition) ∧
    ((KeysFromNamespaceConfig nsCfg (some central)).Source = "namespace") := by
  obtain ⟨claimGVRs, xrGVRs, _, _, _, _, _, _, _, hcr1, _, htm1, _⟩ :=
    parseNamespaceConfigMap_ok hok
  have hcr : lookupStr cm.data "CREATOR_ANNOTATION_KEY" = "" →
      nsCfg.CreatorAnnotationKey = central.CreatorAnnotationKey :=
    fun h => hcr1 h central rfl
  have htm : lookupStr cm.data "TEAM_ANNOTATION_KEY" = "" →
      nsCfg.TeamAnnotationKey = central.TeamAnnotationKey :=
    fun h => htm1 h central rfl
  refine ⟨hcr, htm, ?_, ?_, fun _ => rfl, fun _ _ _ => rfl, rfl⟩
  · intro h obj gvr
    simp [UnstructuredToClaimWithKeys, KeysFromNamespaceConfig, KeysFromConfig, hcr h]
  · intro h obj gvr
    simp [UnstructuredToClaimWithKeys, KeysFromNamespaceConfig, KeysFromConfig, htm h]

def cmOmit : ConfigMap :=
  { ns := "team-a", name := "gvrs-config",
    data := [("CLAIM_GVRS", "example.org/v1/widgets")], labels := [] }

def centralW : Config :=
  { ClaimGVRs := [], XRGVRs := [], Namespaces := [],
    CreatorAnnotationKey := "company.io/creator",
    TeamAnnotationKey := "company.io/team",
    CompositionLabelKey := "crossplane.io/composition-name" }

def nsCfgOmit : NamespaceConfig :=
  { Namespace := "team-a", ConfigMapName := "gvrs-config",
    ClaimGVRs := [{ group := "example.org", version := "v1", resource := "widgets" }],
    XRGVRs := [],
    CreatorAnnotationKey := "company.io/creator",
    TeamAnnotationKey := "company.io/team" }

/-- Witness for C9's theorem at a concrete ConfigMap that omits both
annotation keys. -/
theorem namespaceConfig_key_inheritance_witness :
    ParseNamespaceConfigMap (some cmOmit) (some centralW) = Except.ok nsCfgOmit ∧
    lookupStr cmOmit.data "CREATOR_ANNOTATION_KEY" = "" ∧
    lookupStr cmOmit.data "TEAM_ANNOTATION_KEY" = "" ∧
    nsCfgOmit.CreatorAnnotationKey = centralW.CreatorAnnotationKey ∧
    nsCfgOmit.TeamAnnotationKey = centralW.TeamAnnotationKey ∧
    (KeysFromNamespaceConfig nsCfgOmit (some centralW)).CompositionLabelKey =
      centralW.CompositionLabelKey ∧
    (KeysFromNamespaceConfig nsCfgOmit (some centralW)).Source = "namespace" :=
  have hok : ParseNamespaceConfigMap (some cmOmit) (some centralW) = Except.ok nsCfgOmit := by
    decide
  have hcr : lookupStr cmOmit.data "CREATOR_ANNOTATION_KEY" = "" := by decide
  have htm : lookupStr cmOmit.data "TEAM_ANNOTATION_KEY" = "" := by decide
  have h := namespaceConfig_key_inheritance cmOmit centralW nsCfgOmit hok
  ⟨hok, hcr, htm, h.1 hcr, h.2.1 htm, h.2.2.2.2.1 nsCfgOmit, h.2.2.2.2.2.2⟩

end XPTracker
